import Mathlib

/-!
Verification of the statistical analysis core of the lotto-inspec repository
(`src/analysis.py`). The Python functions are shallowly embedded as Lean
definitions: machine integers become `Nat`/`Int`, Python's exact `int`
arithmetic and float formulas become `Rat` expressions, fallible functions
return `Except AnalysisError`. Transcendental post-processing (the standard
normal CDF `Φ`, `erfc`, and the regularized incomplete gamma function, all
supplied by scipy in the source) is treated as an oracle parameter of the
embedded function wherever a claim mentions it: the oracle receives the exact
rational data the code would pass to the corresponding scipy routine.
-/

namespace LottoInspec

/-- Module-level constants of `src/analysis.py`. -/
def TOTAL_BALLS : ℕ := 45

def BALLS_PER_DRAW : ℕ := 6

def ODD_BALLS : ℕ := 23

def EVEN_BALLS : ℕ := 22

def LOW_BALLS : ℕ := 22

def HIGH_BALLS : ℕ := 23

def TOTAL_COMBINATIONS : ℕ := Nat.choose TOTAL_BALLS BALLS_PER_DRAW

def RANDOMNESS_ALPHA : ℚ := 1 / 100

/-- The `LottoDraw` dataclass of `src/app/services/lotto.py`. -/
structure LottoDraw where
  draw_no : ℕ
  draw_date : String
  numbers : List ℕ
  bonus : ℕ
deriving DecidableEq

/-- Error taxonomy of the spec (section 7); the Python code raises `ValueError`
with a descriptive message at exactly these detection points. `InvalidParameter`
covers the serial test's `m >= 2` parameter validation, which the spec's
taxonomy does not name separately. -/
inductive AnalysisError
  | NoData
  | InsufficientData
  | DegenerateSequence
  | InvalidEncoding
  | EmptyReference
  | InvalidParameter
deriving DecidableEq

/-- Python `_flatten_numbers`: concatenate the `numbers` of every draw in order. -/
def _flatten_numbers : List LottoDraw → List ℕ
  | [] => []
  | draw :: rest => draw.numbers ++ _flatten_numbers rest

/-- Count of adjacent unequal pairs, the loop
`for prev, curr in zip(seq, seq[1:]): if prev != curr: runs += 1`
shared by both runs tests and by the NIST runs test. -/
def adjacent_changes : List ℕ → ℕ
  | a :: b :: rest => (if a ≠ b then 1 else 0) + adjacent_changes (b :: rest)
  | _ => 0

/-- Result record of `runs_test_even_odd` (dataclass `RunsTestResult`). The
z-score and p-value fields of the Python dataclass are the real numbers
`z = (runs - expected_runs) / sqrt variance` and `2 * (1 - Φ |z|)`; they are
determined by the exact rational fields kept here and are not modelled. -/
structure RunsTestResult where
  runs : ℕ
  expected_runs : ℚ
  variance : ℚ
  total_observations : ℕ
deriving DecidableEq

/-- Parity sequence `[num % 2 for num in _flatten_numbers(draws)]`. -/
def parity_sequence (draws : List LottoDraw) : List ℕ :=
  (_flatten_numbers draws).map (fun num => num % 2)

/-- Python `runs_test_even_odd`: runs test on the parity sequence. -/
def runs_test_even_odd (draws : List LottoDraw) :
    Except AnalysisError RunsTestResult :=
  let sequence := parity_sequence draws
  if sequence.length < 2 then .error .InsufficientData
  else
    let runs := 1 + adjacent_changes sequence
    let n1 := sequence.sum
    let n0 := sequence.length - n1
    if n0 = 0 ∨ n1 = 0 then .error .DegenerateSequence
    else
      .ok
        { runs := runs
          expected_runs := (2 * n0 * n1) / ((n0 : ℚ) + n1) + 1
          variance :=
            (2 * n0 * n1 * (2 * (n0 : ℚ) * n1 - n0 - n1)) /
              (((n0 : ℚ) + n1) ^ 2 * ((n0 : ℚ) + n1 - 1))
          total_observations := sequence.length }

/-- Python `statistics.median` on a list of naturals, as an exact rational:
sort ascending; middle element for odd length, mean of the two middle
elements for even length. -/
def pymedian (l : List ℕ) : ℚ :=
  let s := l.mergeSort (fun a b => a ≤ b)
  let n := l.length
  if n % 2 = 1 then (s.getD (n / 2) 0 : ℚ)
  else ((s.getD (n / 2 - 1) 0 : ℚ) + (s.getD (n / 2) 0 : ℚ)) / 2

/-- Per-draw sums `[sum(draw.numbers) for draw in draws]`. -/
def draw_sums (draws : List LottoDraw) : List ℕ :=
  draws.map (fun draw => draw.numbers.sum)

/-- Median-binarized sum sequence `[1 if s >= median else 0 for s in sums]`. -/
def sum_sequence (draws : List LottoDraw) : List ℕ :=
  let sums := draw_sums draws
  let threshold := pymedian sums
  sums.map (fun (draw_sum : ℕ) => if threshold ≤ (draw_sum : ℚ) then (1 : ℕ) else 0)

/-- Result record of `runs_test_on_sums` (dataclass `SumRunsTestResult`);
z-score and p-value as in `RunsTestResult`. -/
structure SumRunsTestResult extends RunsTestResult where
  median_threshold : ℚ
deriving DecidableEq

/-- Python `runs_test_on_sums`: runs test on the median-binarized draw sums. -/
def runs_test_on_sums (draws : List LottoDraw) :
    Except AnalysisError SumRunsTestResult :=
  let sums := draw_sums draws
  if sums.length < 2 then .error .InsufficientData
  else
    let sequence := sum_sequence draws
    let runs := 1 + adjacent_changes sequence
    let n1 := sequence.sum
    let n0 := sequence.length - n1
    if n0 = 0 ∨ n1 = 0 then .error .DegenerateSequence
    else
      .ok
        { runs := runs
          expected_runs := (2 * n0 * n1) / ((n0 : ℚ) + n1) + 1
          variance :=
            (2 * n0 * n1 * (2 * (n0 : ℚ) * n1 - n0 - n1)) /
              (((n0 : ℚ) + n1) ^ 2 * ((n0 : ℚ) + n1 - 1))
          total_observations := sequence.length
          median_threshold := pymedian sums }

/-! Helper lemmas about binary (0/1) sequences and the adjacent-change count. -/

theorem adjacent_changes_eq_countP (l : List ℕ) :
    adjacent_changes l = (l.zip l.tail).countP (fun p => decide (p.1 ≠ p.2)) := by
  induction l with
  | nil => simp [adjacent_changes]
  | cons a t ih =>
    cases t with
    | nil => simp [adjacent_changes]
    | cons b rest =>
      simp only [adjacent_changes, List.tail_cons, List.zip_cons_cons,
        List.countP_cons, ih]
      by_cases hab : a = b <;> simp [hab] <;> omega

theorem sum_eq_count_one {l : List ℕ} (h : ∀ x ∈ l, x = 0 ∨ x = 1) :
    l.sum = l.count 1 := by
  induction l with
  | nil => simp
  | cons a t ih =>
    have ha := h a (by simp)
    have ih' := ih fun x hx => h x (by simp [hx])
    rcases ha with h0 | h1 <;> subst a <;>
      simp [List.count_cons, ih'] <;> omega

theorem count_zero_add_count_one {l : List ℕ} (h : ∀ x ∈ l, x = 0 ∨ x = 1) :
    l.count 0 + l.count 1 = l.length := by
  induction l with
  | nil => simp
  | cons a t ih =>
    have ha := h a (by simp)
    have ih' := ih fun x hx => h x (by simp [hx])
    rcases ha with h0 | h1 <;> subst a <;> simp [List.count_cons] <;> omega

theorem sum_of_constant {l : List ℕ} {c : ℕ} (h : ∀ x ∈ l, x = c) :
    l.sum = l.length * c := by
  induction l with
  | nil => simp
  | cons a t ih =>
    have ha := h a (by simp)
    have ih' := ih fun x hx => h x (by simp [hx])
    subst a
    simp [ih', Nat.succ_mul]
    omega

theorem adjacent_changes_of_alternating {l : List ℕ}
    (h : List.Chain' (fun a b => a ≠ b) l) :
    adjacent_changes l = l.length - 1 := by
  induction l with
  | nil => simp [adjacent_changes]
  | cons a t ih =>
    cases t with
    | nil => simp [adjacent_changes]
    | cons b rest =>
      rw [List.chain'_cons] at h
      have ih' := ih h.2
      simp only [adjacent_changes, if_pos h.1, ih']
      simp
      omega

theorem parity_sequence_binary (draws : List LottoDraw) :
    ∀ x ∈ parity_sequence draws, x = 0 ∨ x = 1 := by
  intro x hx
  simp only [parity_sequence, List.mem_map] at hx
  obtain ⟨num, _, rfl⟩ := hx
  omega

theorem sum_sequence_binary (draws : List LottoDraw) :
    ∀ x ∈ sum_sequence draws, x = 0 ∨ x = 1 := by
  intro x hx
  simp only [sum_sequence, List.mem_map] at hx
  obtain ⟨s, _, rfl⟩ := hx
  split <;> simp

/-- Main-branch evaluation of `runs_test_even_odd`: with at least two
observations and both parities present, the test returns the record whose
fields are given by the run-count and the `n0`/`n1` formulas, with
`n0`/`n1` expressed as value counts. -/
theorem runs_test_even_odd_ok (draws : List LottoDraw)
    (h2 : 2 ≤ (parity_sequence draws).length)
    (h0 : 0 ∈ parity_sequence draws) (h1 : 1 ∈ parity_sequence draws) :
    runs_test_even_odd draws =
      .ok
        { runs := 1 + adjacent_changes (parity_sequence draws)
          expected_runs :=
            2 * ((parity_sequence draws).count 0 : ℚ) *
                ((parity_sequence draws).count 1) /
                (((parity_sequence draws).count 0 : ℚ) +
                  ((parity_sequence draws).count 1)) + 1
          variance :=
            (2 * ((parity_sequence draws).count 0 : ℚ) *
                ((parity_sequence draws).count 1) *
                (2 * ((parity_sequence draws).count 0 : ℚ) *
                    ((parity_sequence draws).count 1) -
                  ((parity_sequence draws).count 0) -
                  ((parity_sequence draws).count 1))) /
              ((((parity_sequence draws).count 0 : ℚ) +
                  ((parity_sequence draws).count 1)) ^ 2 *
                (((parity_sequence draws).count 0 : ℚ) +
                  ((parity_sequence draws).count 1) - 1))
          total_observations := (parity_sequence draws).length } := by
  have hbin := parity_sequence_binary draws
  have hsum : (parity_sequence draws).sum = (parity_sequence draws).count 1 :=
    sum_eq_count_one hbin
  have hcounts := count_zero_add_count_one hbin
  have hn0 : (parity_sequence draws).length - (parity_sequence draws).sum =
      (parity_sequence draws).count 0 := by omega
  have hc0 : 0 < (parity_sequence draws).count 0 := List.count_pos_iff.2 h0
  have hc1 : 0 < (parity_sequence draws).count 1 := List.count_pos_iff.2 h1
  simp only [runs_test_even_odd]
  rw [if_neg (by omega), if_neg (by omega)]
  rw [hn0, hsum]

/-- Main-branch evaluation of `runs_test_on_sums`, as in
`runs_test_even_odd_ok`. -/
theorem runs_test_on_sums_ok (draws : List LottoDraw)
    (h2 : 2 ≤ (sum_sequence draws).length)
    (h0 : 0 ∈ sum_sequence draws) (h1 : 1 ∈ sum_sequence draws) :
    runs_test_on_sums draws =
      .ok
        { runs := 1 + adjacent_changes (sum_sequence draws)
          expected_runs :=
            2 * ((sum_sequence draws).count 0 : ℚ) *
                ((sum_sequence draws).count 1) /
                (((sum_sequence draws).count 0 : ℚ) +
                  ((sum_sequence draws).count 1)) + 1
          variance :=
            (2 * ((sum_sequence draws).count 0 : ℚ) *
                ((sum_sequence draws).count 1) *
                (2 * ((sum_sequence draws).count 0 : ℚ) *
                    ((sum_sequence draws).count 1) -
                  ((sum_sequence draws).count 0) -
                  ((sum_sequence draws).count 1))) /
              ((((sum_sequence draws).count 0 : ℚ) +
                  ((sum_sequence draws).count 1)) ^ 2 *
                (((sum_sequence draws).count 0 : ℚ) +
                  ((sum_sequence draws).count 1) - 1))
          total_observations := (sum_sequence draws).length
          median_threshold := pymedian (draw_sums draws) } := by
  have hbin := sum_sequence_binary draws
  have hsum : (sum_sequence draws).sum = (sum_sequence draws).count 1 :=
    sum_eq_count_one hbin
  have hcounts := count_zero_add_count_one hbin
  have hn0 : (sum_sequence draws).length - (sum_sequence draws).sum =
      (sum_sequence draws).count 0 := by omega
  have hc0 : 0 < (sum_sequence draws).count 0 := List.count_pos_iff.2 h0
  have hc1 : 0 < (sum_sequence draws).count 1 := List.count_pos_iff.2 h1
  have hlen : (draw_sums draws).length = (sum_sequence draws).length := by
    unfold sum_sequence
    exact (List.length_map _ _).symm
  simp only [runs_test_on_sums]
  rw [if_neg (by omega), if_neg (by omega)]
  rw [hn0, hsum]

theorem length_sum_sequence (draws : List LottoDraw) :
    (sum_sequence draws).length = (draw_sums draws).length := by
  unfold sum_sequence
  exact List.length_map _ _

theorem degenerate_condition {L : List ℕ} (hbin : ∀ x ∈ L, x = 0 ∨ x = 1)
    (h2 : 2 ≤ L.length) (hconst : ∀ x ∈ L, ∀ y ∈ L, x = y) :
    L.length - L.sum = 0 ∨ L.sum = 0 := by
  obtain ⟨a, t, hL⟩ : ∃ a t, L = a :: t := by
    cases L with
    | nil => simp at h2
    | cons a t => exact ⟨a, t, rfl⟩
  have hmem : a ∈ L := by rw [hL]; simp
  have hca : ∀ x ∈ L, x = a := fun x hx => hconst x hx a hmem
  have hsum := sum_of_constant hca
  rcases hbin a hmem with h | h <;> subst a <;> omega

/-- C1: the parity runs test and the median-binarized sum runs test count
`runs` as one plus the number of adjacent unequal pairs and report
`expected_runs = 2·n0·n1/(n0+n1) + 1` whenever the derived binary sequence has
length ≥ 2 and contains both a 0 and a 1; a strictly alternating derived
sequence of even length n ≥ 2 yields `runs = n`; a constant derived sequence
of length ≥ 2 makes the test fail with `DegenerateSequence`; a derived
sequence of fewer than two elements makes it fail with `InsufficientData`. -/
theorem claim_C1 (draws : List LottoDraw) :
    (2 ≤ (parity_sequence draws).length → 0 ∈ parity_sequence draws →
      1 ∈ parity_sequence draws →
      ∃ r, runs_test_even_odd draws = .ok r ∧
        r.runs = 1 + ((parity_sequence draws).zip
            (parity_sequence draws).tail).countP (fun p => decide (p.1 ≠ p.2)) ∧
        r.expected_runs =
          2 * ((parity_sequence draws).count 0 : ℚ) *
              ((parity_sequence draws).count 1) /
              (((parity_sequence draws).count 0 : ℚ) +
                ((parity_sequence draws).count 1)) + 1) ∧
    (2 ≤ (sum_sequence draws).length → 0 ∈ sum_sequence draws →
      1 ∈ sum_sequence draws →
      ∃ r, runs_test_on_sums draws = .ok r ∧
        r.runs = 1 + ((sum_sequence draws).zip
            (sum_sequence draws).tail).countP (fun p => decide (p.1 ≠ p.2)) ∧
        r.expected_runs =
          2 * ((sum_sequence draws).count 0 : ℚ) *
              ((sum_sequence draws).count 1) /
              (((sum_sequence draws).count 0 : ℚ) +
                ((sum_sequence draws).count 1)) + 1) ∧
    (List.Chain' (fun a b => a ≠ b) (parity_sequence draws) →
      2 ≤ (parity_sequence draws).length →
      (parity_sequence draws).length % 2 = 0 →
      ∃ r, runs_test_even_odd draws = .ok r ∧
        r.runs = (parity_sequence draws).length) ∧
    (List.Chain' (fun a b => a ≠ b) (sum_sequence draws) →
      2 ≤ (sum_sequence draws).length →
      (sum_sequence draws).length % 2 = 0 →
      ∃ r, runs_test_on_sums draws = .ok r ∧
        r.runs = (sum_sequence draws).length) ∧
    (2 ≤ (parity_sequence draws).length →
      (∀ x ∈ parity_sequence draws, ∀ y ∈ parity_sequence draws, x = y) →
      runs_test_even_odd draws = .error .DegenerateSequence) ∧
    (2 ≤ (sum_sequence draws).length →
      (∀ x ∈ sum_sequence draws, ∀ y ∈ sum_sequence draws, x = y) →
      runs_test_on_sums draws = .error .DegenerateSequence) ∧
    ((parity_sequence draws).length < 2 →
      runs_test_even_odd draws = .error .InsufficientData) ∧
    ((sum_sequence draws).length < 2 →
      runs_test_on_sums draws = .error .InsufficientData) := by
  have hpbin := parity_sequence_binary draws
  have hsbin := sum_sequence_binary draws
  have hlen := length_sum_sequence draws
  refine ⟨?_, ?_, ?_, ?_, ?_, ?_, ?_, ?_⟩
  · intro h2 h0 h1
    exact ⟨_, runs_test_even_odd_ok draws h2 h0 h1,
      by simp [adjacent_changes_eq_countP], rfl⟩
  · intro h2 h0 h1
    exact ⟨_, runs_test_on_sums_ok draws h2 h0 h1,
      by simp [adjacent_changes_eq_countP], rfl⟩
  · intro halt h2 _
    obtain ⟨a, b, rest, hL⟩ :
        ∃ a b rest, parity_sequence draws = a :: b :: rest := by
      rcases hpseq : parity_sequence draws with _ | ⟨a, _ | ⟨b, rest⟩⟩ <;>
        (try (rw [hpseq] at h2; simp at h2)) <;> exact ⟨a, b, rest, rfl⟩
    have hab : a ≠ b := (List.chain'_cons.1 (hL ▸ halt)).1
    have hma : a ∈ parity_sequence draws := by rw [hL]; simp
    have hmb : b ∈ parity_sequence draws := by rw [hL]; simp
    have h01 : 0 ∈ parity_sequence draws ∧ 1 ∈ parity_sequence draws := by
      rcases hpbin a hma with ha | ha <;> rcases hpbin b hmb with hb | hb <;>
        subst a <;> subst b <;> simp_all
    refine ⟨_, runs_test_even_odd_ok draws h2 h01.1 h01.2, ?_⟩
    show 1 + adjacent_changes (parity_sequence draws) =
      (parity_sequence draws).length
    rw [adjacent_changes_of_alternating halt]
    omega
  · intro halt h2 _
    obtain ⟨a, b, rest, hL⟩ :
        ∃ a b rest, sum_sequence draws = a :: b :: rest := by
      rcases hpseq : sum_sequence draws with _ | ⟨a, _ | ⟨b, rest⟩⟩ <;>
        (try (rw [hpseq] at h2; simp at h2)) <;> exact ⟨a, b, rest, rfl⟩
    have hab : a ≠ b := (List.chain'_cons.1 (hL ▸ halt)).1
    have hma : a ∈ sum_sequence draws := by rw [hL]; simp
    have hmb : b ∈ sum_sequence draws := by rw [hL]; simp
    have h01 : 0 ∈ sum_sequence draws ∧ 1 ∈ sum_sequence draws := by
      rcases hsbin a hma with ha | ha <;> rcases hsbin b hmb with hb | hb <;>
        subst a <;> subst b <;> simp_all
    refine ⟨_, runs_test_on_sums_ok draws h2 h01.1 h01.2, ?_⟩
    show 1 + adjacent_changes (sum_sequence draws) =
      (sum_sequence draws).length
    rw [adjacent_changes_of_alternating halt]
    omega
  · intro h2 hconst
    have hdeg := degenerate_condition hpbin h2 hconst
    simp only [runs_test_even_odd]
    rw [if_neg (by omega), if_pos hdeg]
  · intro h2 hconst
    have hdeg := degenerate_condition hsbin h2 hconst
    simp only [runs_test_on_sums]
    rw [if_neg (by omega), if_pos hdeg]
  · intro hshort
    simp only [runs_test_even_odd]
    rw [if_pos hshort]
  · intro hshort
    simp only [runs_test_on_sums]
    rw [if_pos (by omega)]

/-- Witness for C1 at a concrete two-draw history whose parity sequence is
the alternating list `[1,0,1,0,1,0,1,0,1,0,1,0]`. -/
theorem claim_C1_witness :
    (2 ≤ (parity_sequence
        [⟨1, "", [1, 2, 3, 4, 5, 6], 7⟩, ⟨2, "", [7, 8, 9, 10, 11, 12], 13⟩]).length ∧
      0 ∈ parity_sequence
        [⟨1, "", [1, 2, 3, 4, 5, 6], 7⟩, ⟨2, "", [7, 8, 9, 10, 11, 12], 13⟩] ∧
      1 ∈ parity_sequence
        [⟨1, "", [1, 2, 3, 4, 5, 6], 7⟩, ⟨2, "", [7, 8, 9, 10, 11, 12], 13⟩]) ∧
    (∃ r, runs_test_even_odd
        [⟨1, "", [1, 2, 3, 4, 5, 6], 7⟩, ⟨2, "", [7, 8, 9, 10, 11, 12], 13⟩] = .ok r ∧
      r.runs = 1 + ((parity_sequence
          [⟨1, "", [1, 2, 3, 4, 5, 6], 7⟩, ⟨2, "", [7, 8, 9, 10, 11, 12], 13⟩]).zip
            (parity_sequence
          [⟨1, "", [1, 2, 3, 4, 5, 6], 7⟩, ⟨2, "", [7, 8, 9, 10, 11, 12], 13⟩]).tail).countP
          (fun p => decide (p.1 ≠ p.2)) ∧
      r.expected_runs =
        2 * ((parity_sequence
            [⟨1, "", [1, 2, 3, 4, 5, 6], 7⟩, ⟨2, "", [7, 8, 9, 10, 11, 12], 13⟩]).count 0 : ℚ) *
            ((parity_sequence
            [⟨1, "", [1, 2, 3, 4, 5, 6], 7⟩, ⟨2, "", [7, 8, 9, 10, 11, 12], 13⟩]).count 1) /
            (((parity_sequence
            [⟨1, "", [1, 2, 3, 4, 5, 6], 7⟩, ⟨2, "", [7, 8, 9, 10, 11, 12], 13⟩]).count 0 : ℚ) +
              ((parity_sequence
            [⟨1, "", [1, 2, 3, 4, 5, 6], 7⟩, ⟨2, "", [7, 8, 9, 10, 11, 12], 13⟩]).count 1)) + 1) :=
  ⟨⟨by decide, by decide, by decide⟩,
    (claim_C1 [⟨1, "", [1, 2, 3, 4, 5, 6], 7⟩, ⟨2, "", [7, 8, 9, 10, 11, 12], 13⟩]).1
      (by decide) (by decide) (by decide)⟩

/-! C3: number frequencies. -/

/-- Python `calculate_number_frequencies`: a `Counter` over the flattened
numbers, `setdefault(num, 0)` for every num in 1..45, then
`dict(sorted(counts.items()))`. Modelled as the association list, ordered by
key, over the key set of distinct flattened numbers together with 1..45 (the
pre-sort key order of the Python dict is irrelevant after sorting). -/
def calculate_number_frequencies (draws : List LottoDraw) : List (ℕ × ℕ) :=
  let flat := _flatten_numbers draws
  let keys := (flat ++ List.range' 1 TOTAL_BALLS).dedup
  (keys.mergeSort (fun a b => a ≤ b)).map (fun num => (num, flat.count num))

theorem sum_map_add_nat (l : List ℕ) (f g : ℕ → ℕ) :
    (l.map (fun x => f x + g x)).sum = (l.map f).sum + (l.map g).sum := by
  induction l with
  | nil => simp
  | cons a t ih => simp [ih]; omega

theorem sum_map_indicator (keys : List ℕ) (a : ℕ) :
    (keys.map (fun k => if a = k then 1 else 0)).sum = keys.count a := by
  induction keys with
  | nil => simp
  | cons b t ih =>
    by_cases hab : a = b
    · subst b
      simp [List.count_cons, ih]
      omega
    · simp [List.count_cons, hab, ih]

theorem sum_counts_eq_length {keys flat : List ℕ} (hnd : keys.Nodup)
    (hsub : ∀ x ∈ flat, x ∈ keys) :
    (keys.map (fun k => flat.count k)).sum = flat.length := by
  induction flat with
  | nil => simp
  | cons a t ih =>
    have ih' := ih fun x hx => hsub x (by simp [hx])
    have ha : a ∈ keys := hsub a (by simp)
    have hfg : (keys.map (fun k => (a :: t).count k)) =
        keys.map (fun k => t.count k + if a = k then 1 else 0) := by
      have : (fun (k : ℕ) => (a :: t).count k) =
          (fun k => t.count k + if a = k then 1 else 0) := by
        funext k
        simp [List.count_cons]
      rw [this]
    rw [hfg, sum_map_add_nat, ih', sum_map_indicator,
      List.count_eq_one_of_mem hnd ha]
    simp

theorem mem_flatten_numbers {draws : List LottoDraw} {x : ℕ} :
    x ∈ _flatten_numbers draws ↔ ∃ draw ∈ draws, x ∈ draw.numbers := by
  induction draws with
  | nil => simp [_flatten_numbers]
  | cons d rest ih => simp [_flatten_numbers, ih, List.mem_append]

theorem length_flatten_numbers {draws : List LottoDraw}
    (h6 : ∀ draw ∈ draws, draw.numbers.length = BALLS_PER_DRAW) :
    (_flatten_numbers draws).length = BALLS_PER_DRAW * draws.length := by
  induction draws with
  | nil => simp [_flatten_numbers]
  | cons d rest ih =>
    have hd := h6 d (by simp)
    have ih' := ih fun draw hdraw => h6 draw (by simp [hdraw])
    simp [_flatten_numbers, hd, ih', Nat.mul_succ]
    omega

/-- C3: with six numbers from 1..45 per draw, the frequency table's keys are
exactly 1..45 in ascending order, and its values sum to six times the number
of draws. -/
theorem claim_C3 (draws : List LottoDraw)
    (h6 : ∀ draw ∈ draws, draw.numbers.length = BALLS_PER_DRAW)
    (hrange : ∀ draw ∈ draws, ∀ n ∈ draw.numbers, 1 ≤ n ∧ n ≤ TOTAL_BALLS) :
    (calculate_number_frequencies draws).map Prod.fst =
      List.range' 1 TOTAL_BALLS ∧
    ((calculate_number_frequencies draws).map Prod.snd).sum =
      BALLS_PER_DRAW * draws.length := by
  have hflat_sub : ∀ x ∈ _flatten_numbers draws, x ∈ List.range' 1 TOTAL_BALLS := by
    intro x hx
    obtain ⟨draw, hdraw, hxn⟩ := mem_flatten_numbers.1 hx
    have := hrange draw hdraw x hxn
    simp only [List.mem_range'_1]
    omega
  have hknd : ((_flatten_numbers draws ++ List.range' 1 TOTAL_BALLS).dedup).Nodup :=
    List.nodup_dedup _
  have hrnd : (List.range' 1 TOTAL_BALLS).Nodup := List.nodup_range' _ _
  have hmem : ∀ x, x ∈ (_flatten_numbers draws ++ List.range' 1 TOTAL_BALLS).dedup ↔
      x ∈ List.range' 1 TOTAL_BALLS := by
    intro x
    simp only [List.mem_dedup, List.mem_append]
    exact ⟨fun h => h.elim (fun h' => hflat_sub x h') id, fun h => Or.inr h⟩
  have hperm : List.Perm
      ((_flatten_numbers draws ++ List.range' 1 TOTAL_BALLS).dedup)
      (List.range' 1 TOTAL_BALLS) := by
    apply List.perm_of_nodup_nodup_toFinset_eq hknd hrnd
    ext x
    simp only [List.mem_toFinset]
    exact hmem x
  have hsortedR : List.Sorted (· ≤ ·) (List.range' 1 TOTAL_BALLS) := by
    apply List.Pairwise.imp (fun h => Nat.le_of_lt h)
    exact List.pairwise_lt_range' 1 TOTAL_BALLS
  have hsortedM : List.Sorted (· ≤ ·)
      (((_flatten_numbers draws ++ List.range' 1 TOTAL_BALLS).dedup).mergeSort
        (fun a b => a ≤ b)) := List.sorted_mergeSort' _
  have hEq : ((_flatten_numbers draws ++ List.range' 1 TOTAL_BALLS).dedup).mergeSort
      (fun a b => a ≤ b) = List.range' 1 TOTAL_BALLS :=
    List.eq_of_perm_of_sorted ((List.mergeSort_perm _ _).trans hperm)
      hsortedM hsortedR
  constructor
  · simp only [calculate_number_frequencies, hEq, List.map_map]
    have : (Prod.fst ∘ fun num => (num, (_flatten_numbers draws).count num)) =
        id := rfl
    rw [this, List.map_id]
  · simp only [calculate_number_frequencies, hEq, List.map_map]
    have : (Prod.snd ∘ fun num => (num, (_flatten_numbers draws).count num)) =
        (fun k => (_flatten_numbers draws).count k) := rfl
    rw [this, sum_counts_eq_length hrnd hflat_sub,
      length_flatten_numbers h6]

/-- Witness for C3 at a concrete two-draw history. -/
theorem claim_C3_witness :
    ((∀ draw ∈ [(⟨1, "", [1, 2, 3, 4, 5, 6], 7⟩ : LottoDraw),
        ⟨2, "", [40, 41, 42, 43, 44, 45], 1⟩],
        draw.numbers.length = BALLS_PER_DRAW) ∧
      (∀ draw ∈ [(⟨1, "", [1, 2, 3, 4, 5, 6], 7⟩ : LottoDraw),
        ⟨2, "", [40, 41, 42, 43, 44, 45], 1⟩],
        ∀ n ∈ draw.numbers, 1 ≤ n ∧ n ≤ TOTAL_BALLS)) ∧
    ((calculate_number_frequencies [(⟨1, "", [1, 2, 3, 4, 5, 6], 7⟩ : LottoDraw),
        ⟨2, "", [40, 41, 42, 43, 44, 45], 1⟩]).map Prod.fst =
      List.range' 1 TOTAL_BALLS ∧
    ((calculate_number_frequencies [(⟨1, "", [1, 2, 3, 4, 5, 6], 7⟩ : LottoDraw),
        ⟨2, "", [40, 41, 42, 43, 44, 45], 1⟩]).map Prod.snd).sum =
      BALLS_PER_DRAW *
        ([(⟨1, "", [1, 2, 3, 4, 5, 6], 7⟩ : LottoDraw),
          ⟨2, "", [40, 41, 42, 43, 44, 45], 1⟩] : List LottoDraw).length) :=
  ⟨⟨by decide, by decide⟩,
    claim_C3 [⟨1, "", [1, 2, 3, 4, 5, 6], 7⟩, ⟨2, "", [40, 41, 42, 43, 44, 45], 1⟩]
      (by decide) (by decide)⟩

/-! C4: carry-over contingency analysis. -/

/-- Consecutive pairs `zip(draws, draws[1:])`. -/
def _carry_pairs : List LottoDraw → List (LottoDraw × LottoDraw)
  | a :: b :: rest => (a, b) :: _carry_pairs (b :: rest)
  | _ => []

/-- Result record of `carry_over_analysis` (`CarryOverAnalysisResult`). The
chi-square statistic and p-value, computed by
`scipy.stats.chi2_contingency(contingency, correction=False)`, are real-valued
functions of the contingency table and are not modelled. -/
structure CarryOverAnalysisResult where
  previous_hit_probability : ℚ
  previous_miss_probability : ℚ
  contingency_table : List (List ℕ)
deriving DecidableEq

/-- Python `carry_over_analysis`: classify, for each consecutive pair of draws
and each of the 45 numbers, presence in the previous draw against presence in
the current draw, aggregated into a single 2-by-2 table. Sets are modelled by
`List.toFinset`; the subtractions producing the failure cells are exact under
the draw invariant (at most 45 distinct numbers per draw). -/
def carry_over_analysis (draws : List LottoDraw) :
    Except AnalysisError CarryOverAnalysisResult :=
  if draws.length < 2 then .error .InsufficientData
  else
    let pairs := _carry_pairs draws
    let prev_in_total :=
      (pairs.map (fun p => p.1.numbers.toFinset.card)).sum
    let prev_in_success :=
      (pairs.map (fun p => (p.1.numbers.toFinset ∩ p.2.numbers.toFinset).card)).sum
    let prev_out_total :=
      (pairs.map (fun p => TOTAL_BALLS - p.1.numbers.toFinset.card)).sum
    let prev_out_success :=
      (pairs.map (fun p => (p.2.numbers.toFinset \ p.1.numbers.toFinset).card)).sum
    let prev_in_fail := prev_in_total - prev_in_success
    let prev_out_fail := prev_out_total - prev_out_success
    .ok
      { previous_hit_probability :=
          if prev_in_total ≠ 0 then (prev_in_success : ℚ) / prev_in_total else 0
        previous_miss_probability :=
          if prev_out_total ≠ 0 then (prev_out_success : ℚ) / prev_out_total else 0
        contingency_table :=
          [[prev_in_success, prev_in_fail], [prev_out_success, prev_out_fail]] }

theorem carry_pairs_length (draws : List LottoDraw) :
    (_carry_pairs draws).length = draws.length - 1 := by
  induction draws with
  | nil => simp [_carry_pairs]
  | cons a t ih =>
    cases t with
    | nil => simp [_carry_pairs]
    | cons b rest =>
      simp only [_carry_pairs, List.length_cons] at ih ⊢
      omega

theorem carry_pairs_mem {draws : List LottoDraw} {p : LottoDraw × LottoDraw}
    (hp : p ∈ _carry_pairs draws) : p.1 ∈ draws ∧ p.2 ∈ draws := by
  induction draws with
  | nil => simp [_carry_pairs] at hp
  | cons a t ih =>
    cases t with
    | nil => simp [_carry_pairs] at hp
    | cons b rest =>
      simp only [_carry_pairs, List.mem_cons] at hp
      rcases hp with rfl | hp
      · constructor <;> simp
      · have := ih hp
        constructor <;> simp [this.1, this.2]

/-- C4: under the draw invariant (six distinct numbers in 1..45 per draw) and
at least two draws, the 2-by-2 contingency table of `carry_over_analysis` has
first row summing to `6 * (d - 1)`, second row summing to `39 * (d - 1)`, and
overall sum `45 * (d - 1)`; with fewer than two draws the analysis fails with
`InsufficientData`. -/
theorem claim_C4 (draws : List LottoDraw)
    (hvalid : ∀ draw ∈ draws, draw.numbers.Nodup ∧
      draw.numbers.length = BALLS_PER_DRAW ∧
      ∀ n ∈ draw.numbers, 1 ≤ n ∧ n ≤ TOTAL_BALLS) :
    (draws.length < 2 →
      carry_over_analysis draws = .error .InsufficientData) ∧
    (2 ≤ draws.length →
      ∃ r, carry_over_analysis draws = .ok r ∧
        ∃ a b c d, r.contingency_table = [[a, b], [c, d]] ∧
          a + b = BALLS_PER_DRAW * (draws.length - 1) ∧
          c + d = (TOTAL_BALLS - BALLS_PER_DRAW) * (draws.length - 1) ∧
          a + b + (c + d) = TOTAL_BALLS * (draws.length - 1)) := by
  constructor
  · intro h2
    simp only [carry_over_analysis]
    rw [if_pos h2]
  · intro h2
    have hFsub : ∀ draw ∈ draws, draw.numbers.toFinset ⊆
        Finset.Icc 1 TOTAL_BALLS := by
      intro draw hdraw x hx
      rw [List.mem_toFinset] at hx
      have := (hvalid draw hdraw).2.2 x hx
      rw [Finset.mem_Icc]
      omega
    have hcard : ∀ draw ∈ draws, draw.numbers.toFinset.card = 6 := by
      intro draw hdraw
      rw [List.toFinset_card_of_nodup (hvalid draw hdraw).1]
      exact (hvalid draw hdraw).2.1
    have hin_const : ∀ x ∈ ((_carry_pairs draws).map
        (fun p => p.1.numbers.toFinset.card)), x = 6 := by
      intro x hx
      rw [List.mem_map] at hx
      obtain ⟨p, hp, rfl⟩ := hx
      exact hcard p.1 (carry_pairs_mem hp).1
    have hout_const : ∀ x ∈ ((_carry_pairs draws).map
        (fun p => TOTAL_BALLS - p.1.numbers.toFinset.card)), x = 39 := by
      intro x hx
      rw [List.mem_map] at hx
      obtain ⟨p, hp, rfl⟩ := hx
      rw [hcard p.1 (carry_pairs_mem hp).1]
      rfl
    have hin_total : ((_carry_pairs draws).map
        (fun p => p.1.numbers.toFinset.card)).sum =
        (draws.length - 1) * 6 := by
      rw [sum_of_constant hin_const, List.length_map, carry_pairs_length]
    have hout_total : ((_carry_pairs draws).map
        (fun p => TOTAL_BALLS - p.1.numbers.toFinset.card)).sum =
        (draws.length - 1) * 39 := by
      rw [sum_of_constant hout_const, List.length_map, carry_pairs_length]
    have hin_le : ((_carry_pairs draws).map
        (fun p => (p.1.numbers.toFinset ∩ p.2.numbers.toFinset).card)).sum ≤
        ((_carry_pairs draws).map
          (fun p => p.1.numbers.toFinset.card)).sum := by
      apply List.sum_le_sum
      intro p _
      exact Finset.card_le_card Finset.inter_subset_left
    have hout_le : ((_carry_pairs draws).map
        (fun p => (p.2.numbers.toFinset \ p.1.numbers.toFinset).card)).sum ≤
        ((_carry_pairs draws).map
          (fun p => TOTAL_BALLS - p.1.numbers.toFinset.card)).sum := by
      apply List.sum_le_sum
      intro p hp
      have hsub2 : p.2.numbers.toFinset ⊆ Finset.Icc 1 TOTAL_BALLS :=
        hFsub p.2 (carry_pairs_mem hp).2
      have hsub1 : p.1.numbers.toFinset ⊆ Finset.Icc 1 TOTAL_BALLS :=
        hFsub p.1 (carry_pairs_mem hp).1
      calc (p.2.numbers.toFinset \ p.1.numbers.toFinset).card
          ≤ (Finset.Icc 1 TOTAL_BALLS \ p.1.numbers.toFinset).card :=
            Finset.card_le_card (Finset.sdiff_subset_sdiff hsub2 le_rfl)
        _ = TOTAL_BALLS - p.1.numbers.toFinset.card := by
            rw [Finset.card_sdiff hsub1, Nat.card_Icc]
            omega
    simp only [carry_over_analysis]
    rw [if_neg (by omega)]
    rw [show BALLS_PER_DRAW * (draws.length - 1) = (draws.length - 1) * 6 by
        simp only [BALLS_PER_DRAW]; omega,
      show (TOTAL_BALLS - BALLS_PER_DRAW) * (draws.length - 1) =
          (draws.length - 1) * 39 by
        simp only [BALLS_PER_DRAW, TOTAL_BALLS]; omega,
      show TOTAL_BALLS * (draws.length - 1) = (draws.length - 1) * 45 by
        simp only [TOTAL_BALLS]; omega]
    refine ⟨_, rfl, _, _, _, _, rfl, ?_, ?_, ?_⟩ <;> omega

/-- Witness for C4 at a concrete two-draw history sharing numbers 4, 5, 6. -/
theorem claim_C4_witness :
    (∀ draw ∈ [(⟨1, "", [1, 2, 3, 4, 5, 6], 7⟩ : LottoDraw),
        ⟨2, "", [4, 5, 6, 7, 8, 9], 1⟩],
      draw.numbers.Nodup ∧ draw.numbers.length = BALLS_PER_DRAW ∧
        ∀ n ∈ draw.numbers, 1 ≤ n ∧ n ≤ TOTAL_BALLS) ∧
    (∃ r, carry_over_analysis [(⟨1, "", [1, 2, 3, 4, 5, 6], 7⟩ : LottoDraw),
        ⟨2, "", [4, 5, 6, 7, 8, 9], 1⟩] = .ok r ∧
      ∃ a b c d, r.contingency_table = [[a, b], [c, d]] ∧
        a + b = BALLS_PER_DRAW *
          (([(⟨1, "", [1, 2, 3, 4, 5, 6], 7⟩ : LottoDraw),
            ⟨2, "", [4, 5, 6, 7, 8, 9], 1⟩] : List LottoDraw).length - 1) ∧
        c + d = (TOTAL_BALLS - BALLS_PER_DRAW) *
          (([(⟨1, "", [1, 2, 3, 4, 5, 6], 7⟩ : LottoDraw),
            ⟨2, "", [4, 5, 6, 7, 8, 9], 1⟩] : List LottoDraw).length - 1) ∧
        a + b + (c + d) = TOTAL_BALLS *
          (([(⟨1, "", [1, 2, 3, 4, 5, 6], 7⟩ : LottoDraw),
            ⟨2, "", [4, 5, 6, 7, 8, 9], 1⟩] : List LottoDraw).length - 1)) :=
  ⟨by decide,
    (claim_C4 [⟨1, "", [1, 2, 3, 4, 5, 6], 7⟩, ⟨2, "", [4, 5, 6, 7, 8, 9], 1⟩]
      (by decide)).2 (by decide)⟩

/-! C5: pattern chi-square tests. -/

/-- Python module constant `DIGIT_COUNTS = Counter(num % 10 for num in
range(1, TOTAL_BALLS + 1))`: how many of 1..45 end in the given digit. -/
def DIGIT_COUNTS (digit : ℕ) : ℕ :=
  ((List.range' 1 TOTAL_BALLS).filter (fun num => num % 10 = digit)).length

/-- Result record of the pattern analyses (`PatternChiSquareResult`); the
chi-square statistic and p-value (`scipy.stats.chisquare` over the observed
and expected vectors) are not modelled. -/
structure PatternChiSquareResult where
  observed : List (String × ℕ)
  expected : List (String × ℚ)
deriving DecidableEq

/-- Category key `f"{odd}:{BALLS_PER_DRAW - odd}"`. -/
def split_key (k : ℕ) : String :=
  toString k ++ ":" ++ toString (BALLS_PER_DRAW - k)

/-- Python `parity_pattern_analysis`: classify each draw by its odd count,
with exact hypergeometric expected counts. -/
def parity_pattern_analysis (draws : List LottoDraw) :
    Except AnalysisError PatternChiSquareResult :=
  if draws.length = 0 then .error .NoData
  else
    .ok
      { observed :=
          (List.range (BALLS_PER_DRAW + 1)).map (fun odd =>
            (split_key odd, (draws.filter (fun draw =>
              (draw.numbers.filter (fun num => num % 2 = 1)).length = odd)).length))
        expected :=
          (List.range (BALLS_PER_DRAW + 1)).map (fun odd =>
            (split_key odd,
              ((Nat.choose ODD_BALLS odd *
                  Nat.choose EVEN_BALLS (BALLS_PER_DRAW - odd) : ℚ) /
                TOTAL_COMBINATIONS) * draws.length)) }

/-- Python `low_high_pattern_analysis`: classify each draw by its count of
numbers ≤ 22, with exact hypergeometric expected counts. -/
def low_high_pattern_analysis (draws : List LottoDraw) :
    Except AnalysisError PatternChiSquareResult :=
  if draws.length = 0 then .error .NoData
  else
    .ok
      { observed :=
          (List.range (BALLS_PER_DRAW + 1)).map (fun low =>
            (split_key low, (draws.filter (fun draw =>
              (draw.numbers.filter (fun num => num ≤ LOW_BALLS)).length = low)).length))
        expected :=
          (List.range (BALLS_PER_DRAW + 1)).map (fun low =>
            (split_key low,
              ((Nat.choose LOW_BALLS low *
                  Nat.choose HIGH_BALLS (BALLS_PER_DRAW - low) : ℚ) /
                TOTAL_COMBINATIONS) * draws.length)) }

/-- Python `last_digit_analysis`: tally every drawn number by its last digit,
with expected counts proportional to `DIGIT_COUNTS`. -/
def last_digit_analysis (draws : List LottoDraw) :
    Except AnalysisError PatternChiSquareResult :=
  if draws.length = 0 then .error .NoData
  else
    .ok
      { observed :=
          (List.range 10).map (fun digit =>
            (toString digit,
              ((_flatten_numbers draws).filter (fun num => num % 10 = digit)).length))
        expected :=
          (List.range 10).map (fun digit =>
            (toString digit,
              ((DIGIT_COUNTS digit : ℚ) / TOTAL_BALLS) *
                (draws.length * BALLS_PER_DRAW))) }

theorem sum_map_mul_const (l : List ℕ) (f : ℕ → ℚ) (c : ℚ) :
    (l.map (fun k => f k * c)).sum = (l.map f).sum * c := by
  induction l with
  | nil => simp
  | cons a t ih => simp [ih, add_mul]

/-- C5: the exact category probabilities of the parity and low/high pattern
tests sum to one (a Vandermonde identity at 23 + 22 = 45 choose 6), and
consequently, on any non-empty draw history, the expected counts of
`parity_pattern_analysis` and `low_high_pattern_analysis` sum to the number
of draws and those of `last_digit_analysis` to six times the number of draws,
exactly in rational arithmetic. -/
theorem claim_C5 (draws : List LottoDraw) (hne : draws.length ≠ 0) :
    (((List.range (BALLS_PER_DRAW + 1)).map (fun odd =>
        ((Nat.choose ODD_BALLS odd *
            Nat.choose EVEN_BALLS (BALLS_PER_DRAW - odd) : ℚ) /
          TOTAL_COMBINATIONS))).sum = 1) ∧
    (((List.range (BALLS_PER_DRAW + 1)).map (fun low =>
        ((Nat.choose LOW_BALLS low *
            Nat.choose HIGH_BALLS (BALLS_PER_DRAW - low) : ℚ) /
          TOTAL_COMBINATIONS))).sum = 1) ∧
    (∃ r, parity_pattern_analysis draws = .ok r ∧
      (r.expected.map Prod.snd).sum = draws.length) ∧
    (∃ r, low_high_pattern_analysis draws = .ok r ∧
      (r.expected.map Prod.snd).sum = draws.length) ∧
    (∃ r, last_digit_analysis draws = .ok r ∧
      (r.expected.map Prod.snd).sum = BALLS_PER_DRAW * draws.length) := by
  have hch : ∀ n k v : ℕ, Nat.descFactorial n k / Nat.factorial k = v →
      Nat.choose n k = v := by
    intro n k v hv
    rw [Nat.choose_eq_descFactorial_div_factorial, hv]
  have h23 : Nat.choose 23 0 = 1 ∧ Nat.choose 23 1 = 23 ∧
      Nat.choose 23 2 = 253 ∧ Nat.choose 23 3 = 1771 ∧
      Nat.choose 23 4 = 8855 ∧ Nat.choose 23 5 = 33649 ∧
      Nat.choose 23 6 = 100947 :=
    ⟨hch _ _ _ (by decide), hch _ _ _ (by decide), hch _ _ _ (by decide),
      hch _ _ _ (by decide), hch _ _ _ (by decide), hch _ _ _ (by decide),
      hch _ _ _ (by decide)⟩
  have h22 : Nat.choose 22 0 = 1 ∧ Nat.choose 22 1 = 22 ∧
      Nat.choose 22 2 = 231 ∧ Nat.choose 22 3 = 1540 ∧
      Nat.choose 22 4 = 7315 ∧ Nat.choose 22 5 = 26334 ∧
      Nat.choose 22 6 = 74613 :=
    ⟨hch _ _ _ (by decide), hch _ _ _ (by decide), hch _ _ _ (by decide),
      hch _ _ _ (by decide), hch _ _ _ (by decide), hch _ _ _ (by decide),
      hch _ _ _ (by decide)⟩
  have hc : Nat.choose 45 6 = 8145060 := hch _ _ _ (by decide)
  obtain ⟨h23_0, h23_1, h23_2, h23_3, h23_4, h23_5, h23_6⟩ := h23
  obtain ⟨h22_0, h22_1, h22_2, h22_3, h22_4, h22_5, h22_6⟩ := h22
  have hid1 : (((List.range (BALLS_PER_DRAW + 1)).map (fun odd =>
      ((Nat.choose ODD_BALLS odd *
          Nat.choose EVEN_BALLS (BALLS_PER_DRAW - odd) : ℚ) /
        TOTAL_COMBINATIONS))).sum = 1) := by
    rw [show List.range (BALLS_PER_DRAW + 1) = [0, 1, 2, 3, 4, 5, 6] from rfl]
    simp only [List.map_cons, List.map_nil, List.sum_cons, List.sum_nil]
    norm_num [ODD_BALLS, EVEN_BALLS, BALLS_PER_DRAW, TOTAL_COMBINATIONS,
      TOTAL_BALLS, h23_0, h23_1, h23_2, h23_3, h23_4, h23_5, h23_6,
      h22_0, h22_1, h22_2, h22_3, h22_4, h22_5, h22_6, hc]
  have hid2 : (((List.range (BALLS_PER_DRAW + 1)).map (fun low =>
      ((Nat.choose LOW_BALLS low *
          Nat.choose HIGH_BALLS (BALLS_PER_DRAW - low) : ℚ) /
        TOTAL_COMBINATIONS))).sum = 1) := by
    rw [show List.range (BALLS_PER_DRAW + 1) = [0, 1, 2, 3, 4, 5, 6] from rfl]
    simp only [List.map_cons, List.map_nil, List.sum_cons, List.sum_nil]
    norm_num [LOW_BALLS, HIGH_BALLS, BALLS_PER_DRAW, TOTAL_COMBINATIONS,
      TOTAL_BALLS, h23_0, h23_1, h23_2, h23_3, h23_4, h23_5, h23_6,
      h22_0, h22_1, h22_2, h22_3, h22_4, h22_5, h22_6, hc]
  have hdig : DIGIT_COUNTS 0 = 4 ∧ DIGIT_COUNTS 1 = 5 ∧ DIGIT_COUNTS 2 = 5 ∧
      DIGIT_COUNTS 3 = 5 ∧ DIGIT_COUNTS 4 = 5 ∧ DIGIT_COUNTS 5 = 5 ∧
      DIGIT_COUNTS 6 = 4 ∧ DIGIT_COUNTS 7 = 4 ∧ DIGIT_COUNTS 8 = 4 ∧
      DIGIT_COUNTS 9 = 4 := by
    refine ⟨?_, ?_, ?_, ?_, ?_, ?_, ?_, ?_, ?_, ?_⟩ <;> decide
  obtain ⟨hd0, hd1, hd2, hd3, hd4, hd5, hd6, hd7, hd8, hd9⟩ := hdig
  have hid3 : (((List.range 10).map (fun digit =>
      ((DIGIT_COUNTS digit : ℚ) / TOTAL_BALLS))).sum = 1) := by
    rw [show List.range 10 = [0, 1, 2, 3, 4, 5, 6, 7, 8, 9] from rfl]
    simp only [List.map_cons, List.map_nil, List.sum_cons, List.sum_nil]
    norm_num [TOTAL_BALLS, hd0, hd1, hd2, hd3, hd4, hd5, hd6, hd7, hd8, hd9]
  refine ⟨hid1, hid2, ?_, ?_, ?_⟩
  · simp only [parity_pattern_analysis]
    rw [if_neg hne]
    refine ⟨_, rfl, ?_⟩
    simp only [List.map_map]
    have hcomp : (Prod.snd ∘ fun odd =>
          (split_key odd,
            ((Nat.choose ODD_BALLS odd *
                Nat.choose EVEN_BALLS (BALLS_PER_DRAW - odd) : ℚ) /
              TOTAL_COMBINATIONS) * draws.length)) =
          (fun odd =>
            ((Nat.choose ODD_BALLS odd *
                Nat.choose EVEN_BALLS (BALLS_PER_DRAW - odd) : ℚ) /
              TOTAL_COMBINATIONS) * (draws.length : ℚ)) := rfl
    rw [hcomp, sum_map_mul_const, hid1, one_mul]
  · simp only [low_high_pattern_analysis]
    rw [if_neg hne]
    refine ⟨_, rfl, ?_⟩
    simp only [List.map_map]
    have hcomp : (Prod.snd ∘ fun low =>
          (split_key low,
            ((Nat.choose LOW_BALLS low *
                Nat.choose HIGH_BALLS (BALLS_PER_DRAW - low) : ℚ) /
              TOTAL_COMBINATIONS) * draws.length)) =
          (fun low =>
            ((Nat.choose LOW_BALLS low *
                Nat.choose HIGH_BALLS (BALLS_PER_DRAW - low) : ℚ) /
              TOTAL_COMBINATIONS) * (draws.length : ℚ)) := rfl
    rw [hcomp, sum_map_mul_const, hid2, one_mul]
  · simp only [last_digit_analysis]
    rw [if_neg hne]
    refine ⟨_, rfl, ?_⟩
    simp only [List.map_map]
    have hcomp : (Prod.snd ∘ fun digit =>
          (toString digit,
            ((DIGIT_COUNTS digit : ℚ) / TOTAL_BALLS) *
              (draws.length * BALLS_PER_DRAW))) =
          (fun digit =>
            ((DIGIT_COUNTS digit : ℚ) / TOTAL_BALLS) *
              ((draws.length : ℚ) * (BALLS_PER_DRAW : ℚ))) := rfl
    rw [hcomp, sum_map_mul_const, hid3, one_mul]
    push_cast
    ring

/-- Witness for C5 at a one-draw history. -/
theorem claim_C5_witness :
    (([(⟨1, "", [1, 2, 3, 4, 5, 6], 7⟩ : LottoDraw)] : List LottoDraw).length ≠ 0) ∧
    (∃ r, parity_pattern_analysis [(⟨1, "", [1, 2, 3, 4, 5, 6], 7⟩ : LottoDraw)] = .ok r ∧
      (r.expected.map Prod.snd).sum =
        ([(⟨1, "", [1, 2, 3, 4, 5, 6], 7⟩ : LottoDraw)] : List LottoDraw).length) :=
  ⟨by decide,
    ((claim_C5 [⟨1, "", [1, 2, 3, 4, 5, 6], 7⟩] (by decide)).2.2).1⟩

/-! C6: reference-histogram scaling and the distribution comparisons. -/

/-- Python `_scale_simulated_hist`: proportional scaling of a simulated
histogram (an association list of value-count pairs) so that its total mass
matches the observed total; fails when the simulated sample size is zero. -/
def _scale_simulated_hist (simulated_hist : List (ℕ × ℕ))
    (simulated_total observed_total : ℕ) :
    Except AnalysisError (List (ℕ × ℚ)) :=
  if simulated_total = 0 then .error .EmptyReference
  else
    .ok (simulated_hist.map (fun kv =>
      (kv.1, ((kv.2 : ℚ) / simulated_total) * observed_total)))

/-- Histogram (`collections.Counter`) of a list of naturals: each distinct
value paired with its multiplicity. Python iterates keys in first-insertion
order; the claims are insensitive to key order. -/
def counter_of (l : List ℕ) : List (ℕ × ℕ) :=
  l.dedup.map (fun v => (v, l.count v))

/-- Consecutive differences of a list, `curr - prev` over
`zip(sorted_numbers, sorted_numbers[1:])`. -/
def _pair_diffs : List ℕ → List ℕ
  | a :: b :: rest => (b - a) :: _pair_diffs (b :: rest)
  | _ => []

/-- Observed intra-draw gaps of `gap_distribution_analysis`: for each draw,
the consecutive differences of its ascending-sorted numbers, concatenated. -/
def observed_gaps : List LottoDraw → List ℕ
  | [] => []
  | draw :: rest =>
      _pair_diffs (draw.numbers.mergeSort (fun a b => a ≤ b)) ++ observed_gaps rest

/-- Partial result record of the distribution comparisons
(`DistributionComparisonResult`): the observed histogram and the scaled
expected histogram. The chi-square over the union of keys with the `1e-9`
floor on expected bins and the two-sample Kolmogorov-Smirnov statistic, both
computed by scipy, are real-valued post-processing and are not modelled. -/
structure DistributionComparisonPartial where
  observed_histogram : List (ℕ × ℕ)
  expected_scaled : List (ℕ × ℚ)
deriving DecidableEq

/-- Python `sum_distribution_analysis` with an externally supplied simulated
reference pair `(simulated_sums, simulated_hist)`. -/
def sum_distribution_analysis (draws : List LottoDraw)
    (simulated_sums : List ℕ) (simulated_hist : List (ℕ × ℕ)) :
    Except AnalysisError DistributionComparisonPartial :=
  let actual_sums := draw_sums draws
  match _scale_simulated_hist simulated_hist simulated_sums.length
      actual_sums.length with
  | .error e => .error e
  | .ok scaled => .ok ⟨counter_of actual_sums, scaled⟩

/-- Python `gap_distribution_analysis` with an externally supplied simulated
reference pair `(simulated_gaps, simulated_hist)`. -/
def gap_distribution_analysis (draws : List LottoDraw)
    (simulated_gaps : List ℕ) (simulated_hist : List (ℕ × ℕ)) :
    Except AnalysisError DistributionComparisonPartial :=
  let gaps := observed_gaps draws
  match _scale_simulated_hist simulated_hist simulated_gaps.length
      gaps.length with
  | .error e => .error e
  | .ok scaled => .ok ⟨counter_of gaps, scaled⟩

theorem scaled_hist_sum (hist : List (ℕ × ℕ)) (st ot : ℕ) :
    ((hist.map (fun kv => ((kv.2 : ℚ) / st) * ot)).sum) =
      ((hist.map Prod.snd).sum : ℚ) / st * ot := by
  induction hist with
  | nil => simp
  | cons kv t ih =>
    simp only [List.map_cons, List.sum_cons, ih]
    push_cast
    ring

theorem scale_simulated_hist_ok (hist : List (ℕ × ℕ)) (st ot : ℕ)
    (hst : st ≠ 0) (htotal : (hist.map Prod.snd).sum = st) :
    ∃ scaled, _scale_simulated_hist hist st ot = .ok scaled ∧
      (scaled.map Prod.snd).sum = ot := by
  simp only [_scale_simulated_hist]
  rw [if_neg hst]
  refine ⟨_, rfl, ?_⟩
  simp only [List.map_map]
  have hcomp : (Prod.snd ∘ fun kv : ℕ × ℕ =>
      (kv.1, ((kv.2 : ℚ) / st) * ot)) =
      (fun kv : ℕ × ℕ => ((kv.2 : ℚ) / st) * ot) := rfl
  rw [hcomp, scaled_hist_sum, htotal]
  rw [div_self (by exact_mod_cast hst), one_mul]

/-- C6: scaling a reference histogram whose counts sum to the simulated total
preserves total mass: with simulated total zero the operation fails with
`EmptyReference`; otherwise the scaled histogram sums exactly to the observed
total, so the distribution analyses produce scaled expected histograms
summing to the observed sample count (number of draws for the sum analysis,
number of observed gaps for the gap analysis). -/
theorem claim_C6 (hist : List (ℕ × ℕ)) (ot : ℕ) (draws : List LottoDraw)
    (sims : List ℕ) :
    (_scale_simulated_hist hist 0 ot = .error .EmptyReference) ∧
    (∀ st : ℕ, st ≠ 0 → (hist.map Prod.snd).sum = st →
      ∃ scaled, _scale_simulated_hist hist st ot = .ok scaled ∧
        (scaled.map Prod.snd).sum = ot) ∧
    (sims.length ≠ 0 → (hist.map Prod.snd).sum = sims.length →
      ∃ r, sum_distribution_analysis draws sims hist = .ok r ∧
        (r.expected_scaled.map Prod.snd).sum = draws.length) ∧
    (sims.length ≠ 0 → (hist.map Prod.snd).sum = sims.length →
      ∃ r, gap_distribution_analysis draws sims hist = .ok r ∧
        (r.expected_scaled.map Prod.snd).sum = (observed_gaps draws).length) := by
  refine ⟨?_, ?_, ?_, ?_⟩
  · simp [_scale_simulated_hist]
  · intro st hst htotal
    exact scale_simulated_hist_ok hist st ot hst htotal
  · intro hne htotal
    obtain ⟨scaled, hs, hsum⟩ := scale_simulated_hist_ok hist sims.length
      (draw_sums draws).length hne htotal
    refine ⟨⟨counter_of (draw_sums draws), scaled⟩, ?_, ?_⟩
    · simp only [sum_distribution_analysis, hs]
    · simpa [draw_sums] using hsum
  · intro hne htotal
    obtain ⟨scaled, hs, hsum⟩ := scale_simulated_hist_ok hist sims.length
      (observed_gaps draws).length hne htotal
    refine ⟨⟨counter_of (observed_gaps draws), scaled⟩, ?_, ?_⟩
    · simp only [gap_distribution_analysis, hs]
    · exact hsum

/-- Witness for C6 at a concrete two-bin histogram and one-draw history. -/
theorem claim_C6_witness :
    (([10, 20, 20] : List ℕ).length ≠ 0 ∧
      (([(100, 1), (200, 2)] : List (ℕ × ℕ)).map Prod.snd).sum =
        ([10, 20, 20] : List ℕ).length) ∧
    (∃ r, sum_distribution_analysis [(⟨1, "", [1, 2, 3, 4, 5, 6], 7⟩ : LottoDraw)]
        [10, 20, 20] [(100, 1), (200, 2)] = .ok r ∧
      (r.expected_scaled.map Prod.snd).sum =
        ([(⟨1, "", [1, 2, 3, 4, 5, 6], 7⟩ : LottoDraw)] : List LottoDraw).length) :=
  ⟨⟨by decide, by decide⟩,
    (claim_C6 [(100, 1), (200, 2)] 0 [⟨1, "", [1, 2, 3, 4, 5, 6], 7⟩]
      [10, 20, 20]).2.2.1 (by decide) (by decide)⟩

/-! C7: bit-sequence derivation. -/

/-- Binary digit list of `n`, most significant digit first (Python `bin`,
with `[0]` for zero). The first argument is recursion fuel; the bit length of
`n` never exceeds `n`, so `binDigitsCore n n` computes the digits. -/
def binDigitsCore : ℕ → ℕ → List ℕ
  | 0, n => [n % 2]
  | fuel + 1, n => if n < 2 then [n] else binDigitsCore fuel (n / 2) ++ [n % 2]

def binDigits (n : ℕ) : List ℕ := binDigitsCore n n

/-- Python `f"{num:06b}"` as a bit list: the binary digits of `num`,
left-padded with zeros to at least six digits. -/
def format06b (num : ℕ) : List ℕ :=
  List.replicate (6 - (binDigits num).length) 0 ++ binDigits num

/-- Presence encoding: per draw, 45 bits indicating membership of 1..45. -/
def presence_bits : List LottoDraw → List ℕ
  | [] => []
  | draw :: rest =>
      ((List.range' 1 TOTAL_BALLS).map
        (fun number => if number ∈ draw.numbers then 1 else 0)) ++
        presence_bits rest

/-- Parity encoding: one bit per drawn number, `1 if num % 2 else 0`. -/
def parity_bits : List LottoDraw → List ℕ
  | [] => []
  | draw :: rest =>
      (draw.numbers.map (fun num => if num % 2 ≠ 0 then 1 else 0)) ++
        parity_bits rest

/-- Binary encoding: six zero-padded binary digits per drawn number. -/
def binary_bits : List LottoDraw → List ℕ
  | [] => []
  | draw :: rest => (draw.numbers.map format06b).join ++ binary_bits rest

/-- Python `_bit_sequence_from_draws`: validate the encoding name, then
dispatch over the three recognized encodings (the final arm is unreachable
and mirrors the Python fall-through producing an empty bit list). -/
def _bit_sequence_from_draws (draws : List LottoDraw) (encoding : String) :
    Except AnalysisError (List ℕ) :=
  if encoding ≠ "presence" ∧ encoding ≠ "parity" ∧ encoding ≠ "binary" then
    .error .InvalidEncoding
  else if encoding = "presence" then .ok (presence_bits draws)
  else if encoding = "parity" then .ok (parity_bits draws)
  else if encoding = "binary" then .ok (binary_bits draws)
  else .ok []

theorem presence_bits_eq_bind (draws : List LottoDraw) :
    presence_bits draws = draws.bind (fun draw =>
      (List.range' 1 TOTAL_BALLS).map
        (fun number => if number ∈ draw.numbers then 1 else 0)) := by
  induction draws with
  | nil => simp [presence_bits]
  | cons d rest ih => simp [presence_bits, ih]

theorem parity_bits_eq_map (draws : List LottoDraw) :
    parity_bits draws = (_flatten_numbers draws).map
      (fun num => if num % 2 ≠ 0 then 1 else 0) := by
  induction draws with
  | nil => simp [parity_bits, _flatten_numbers]
  | cons d rest ih => simp [parity_bits, _flatten_numbers, ih]

theorem length_presence_bits (draws : List LottoDraw) :
    (presence_bits draws).length = TOTAL_BALLS * draws.length := by
  induction draws with
  | nil => simp [presence_bits]
  | cons d rest ih =>
    simp [presence_bits, ih, Nat.mul_succ]
    omega

theorem length_format06b {num : ℕ} (h : num ≤ TOTAL_BALLS) :
    (format06b num).length = 6 := by
  revert num h
  decide

theorem length_binary_bits {draws : List LottoDraw}
    (hvalid : ∀ draw ∈ draws, draw.numbers.length = BALLS_PER_DRAW ∧
      ∀ n ∈ draw.numbers, n ≤ TOTAL_BALLS) :
    (binary_bits draws).length = 36 * draws.length := by
  induction draws with
  | nil => simp [binary_bits]
  | cons d rest ih =>
    have hd := hvalid d (by simp)
    have ih' := ih fun draw hdraw => hvalid draw (by simp [hdraw])
    have hjoin : ((d.numbers.map format06b).join).length = 36 := by
      rw [List.length_join, List.map_map]
      have hconst : ∀ x ∈ d.numbers.map (List.length ∘ format06b), x = 6 := by
        intro x hx
        rw [List.mem_map] at hx
        obtain ⟨num, hnum, rfl⟩ := hx
        exact length_format06b (hd.2 num hnum)
      rw [sum_of_constant hconst, List.length_map, hd.1]
      rfl
    simp only [binary_bits, List.length_append, hjoin, ih', List.length_cons]
    omega

theorem bit_sequence_presence_eq (draws : List LottoDraw) :
    _bit_sequence_from_draws draws "presence" = .ok (presence_bits draws) := by
  unfold _bit_sequence_from_draws
  rw [if_neg (fun h => h.1 rfl), if_pos rfl]

theorem bit_sequence_parity_eq (draws : List LottoDraw) :
    _bit_sequence_from_draws draws "parity" = .ok (parity_bits draws) := by
  unfold _bit_sequence_from_draws
  rw [if_neg (fun h => h.2.1 rfl), if_neg (by decide), if_pos rfl]

theorem bit_sequence_binary_eq (draws : List LottoDraw) :
    _bit_sequence_from_draws draws "binary" = .ok (binary_bits draws) := by
  unfold _bit_sequence_from_draws
  rw [if_neg (fun h => h.2.2 rfl), if_neg (by decide), if_neg (by decide),
    if_pos rfl]

/-- C7: the bit-sequence derivation fails with `InvalidEncoding` exactly when
the encoding is not one of presence, parity, binary; otherwise it emits, per
draw, 45 membership-indicator bits (presence), one parity bit per drawn
number in draw-then-number order (parity), or six zero-padded binary digits
per drawn number (binary), giving output lengths `45 d`, `6 d`, `36 d` under
the draw invariant. -/
theorem claim_C7 (draws : List LottoDraw) (encoding : String) :
    (_bit_sequence_from_draws draws encoding = .error .InvalidEncoding ↔
      encoding ≠ "presence" ∧ encoding ≠ "parity" ∧ encoding ≠ "binary") ∧
    (_bit_sequence_from_draws draws "presence" = .ok (presence_bits draws) ∧
      presence_bits draws = draws.bind (fun draw =>
        (List.range' 1 TOTAL_BALLS).map
          (fun number => if number ∈ draw.numbers then 1 else 0)) ∧
      (presence_bits draws).length = TOTAL_BALLS * draws.length) ∧
    (_bit_sequence_from_draws draws "parity" = .ok (parity_bits draws) ∧
      parity_bits draws = (_flatten_numbers draws).map
        (fun num => if num % 2 ≠ 0 then 1 else 0) ∧
      ((∀ draw ∈ draws, draw.numbers.length = BALLS_PER_DRAW) →
        (parity_bits draws).length = BALLS_PER_DRAW * draws.length)) ∧
    (_bit_sequence_from_draws draws "binary" = .ok (binary_bits draws) ∧
      ((∀ draw ∈ draws, draw.numbers.length = BALLS_PER_DRAW ∧
          ∀ n ∈ draw.numbers, n ≤ TOTAL_BALLS) →
        (binary_bits draws).length = 36 * draws.length)) := by
  refine ⟨?_,
    ⟨bit_sequence_presence_eq draws, presence_bits_eq_bind draws,
      length_presence_bits draws⟩,
    ⟨bit_sequence_parity_eq draws, parity_bits_eq_map draws, ?_⟩,
    ⟨bit_sequence_binary_eq draws, fun h => length_binary_bits h⟩⟩
  · constructor
    · intro heq
      by_contra hvalid
      rw [not_and_or, not_and_or] at hvalid
      simp only [ne_eq, not_not] at hvalid
      rcases hvalid with h | h | h <;> subst h
      · rw [bit_sequence_presence_eq] at heq
        simp at heq
      · rw [bit_sequence_parity_eq] at heq
        simp at heq
      · rw [bit_sequence_binary_eq] at heq
        simp at heq
    · intro hvalid
      simp only [_bit_sequence_from_draws]
      rw [if_pos hvalid]
  · intro h6
    rw [parity_bits_eq_map, List.length_map, length_flatten_numbers h6]

/-- Witness for C7: the iff instantiated at a rejected encoding, plus the
binary-length clause at a concrete one-draw history. -/
theorem claim_C7_witness :
    (_bit_sequence_from_draws [] "hex" = .error .InvalidEncoding) ∧
    ((∀ draw ∈ [(⟨1, "", [1, 2, 33, 44, 45, 6], 7⟩ : LottoDraw)],
        draw.numbers.length = BALLS_PER_DRAW ∧
          ∀ n ∈ draw.numbers, n ≤ TOTAL_BALLS) ∧
      (binary_bits [(⟨1, "", [1, 2, 33, 44, 45, 6], 7⟩ : LottoDraw)]).length =
        36 * ([(⟨1, "", [1, 2, 33, 44, 45, 6], 7⟩ : LottoDraw)] : List LottoDraw).length) :=
  ⟨(claim_C7 [] "hex").1.2 (by decide),
    ⟨by decide,
      (claim_C7 [⟨1, "", [1, 2, 33, 44, 45, 6], 7⟩] "binary").2.2.2.2 (by decide)⟩⟩

/-! C8: NIST-style runs test. -/

/-- Result record of the NIST-suite tests (`RandomnessTestResult`), minus the
name and detail fields. The p-value is whatever the supplied transcendental
oracle returns. -/
structure RandomnessTestFields where
  statistic : Option ℚ
  p_value : ℚ
  passed : Bool
deriving DecidableEq

/-- Python `_runs_test`, with the `erfc` oracle supplied as a function of the
square of its argument: the code computes
`p = erfc(|V - 2 n pi (1-pi)| / (2 sqrt(2 n) pi (1-pi)))`, whose argument is
the square root of the rational `(V - 2 n pi (1-pi))^2 / (8 n (pi (1-pi))^2)`;
the float pre-check `abs(pi - 0.5) >= 2/sqrt(n)` is equivalent, for n > 0, to
the exact rational inequality `4 <= n (pi - 1/2)^2` (`runs_precheck_iff`). -/
def _runs_test (erfcOfSq : ℚ → ℚ) (bits : List ℕ) :
    Except AnalysisError RandomnessTestFields :=
  if bits.length < 100 then .error .InsufficientData
  else
    let n := bits.length
    let pi : ℚ := (bits.sum : ℚ) / n
    if 4 ≤ (n : ℚ) * (pi - 1 / 2) ^ 2 then
      .ok { statistic := none, p_value := 0, passed := false }
    else
      let vn := 1 + adjacent_changes bits
      let argSq : ℚ :=
        ((vn : ℚ) - 2 * n * pi * (1 - pi)) ^ 2 /
          (8 * n * (pi * (1 - pi)) ^ 2)
      .ok { statistic := some (vn : ℚ), p_value := erfcOfSq argSq,
            passed := decide (RANDOMNESS_ALPHA ≤ erfcOfSq argSq) }

/-- The rational pre-check of `_runs_test` is exactly the spec's real
inequality `|pi - 1/2| >= 2 / sqrt n`. -/
theorem runs_precheck_iff (n : ℕ) (hn : 0 < n) (q : ℚ) :
    (4 ≤ (n : ℚ) * (q - 1 / 2) ^ 2) ↔
      2 / Real.sqrt n ≤ |(q : ℝ) - 1 / 2| := by
  have hs : (0 : ℝ) < Real.sqrt n := Real.sqrt_pos.2 (by exact_mod_cast hn)
  have hsq : Real.sqrt n ^ 2 = n := Real.sq_sqrt (by positivity)
  have habs : (0 : ℝ) ≤ |(q : ℝ) - 1 / 2| := abs_nonneg _
  have ht2 : (|(q : ℝ) - 1 / 2| * Real.sqrt n) ^ 2 =
      ((q : ℝ) - 1 / 2) ^ 2 * n := by
    rw [mul_pow, sq_abs, hsq]
  have htnn : (0 : ℝ) ≤ |(q : ℝ) - 1 / 2| * Real.sqrt n := by positivity
  have key : (((n : ℚ) * (q - 1 / 2) ^ 2 : ℚ) : ℝ) =
      (n : ℝ) * ((q : ℝ) - 1 / 2) ^ 2 := by
    push_cast
    ring
  have h4 : ((4 : ℚ) : ℝ) = (4 : ℝ) := by norm_num
  rw [div_le_iff hs]
  constructor
  · intro h
    have hr : (4 : ℝ) ≤ (n : ℝ) * ((q : ℝ) - 1 / 2) ^ 2 := by
      rw [← h4, ← key]
      exact Rat.cast_le.2 h
    nlinarith [ht2, htnn, hr]
  · intro h
    have hr : (4 : ℝ) ≤ (n : ℝ) * ((q : ℝ) - 1 / 2) ^ 2 := by
      nlinarith [ht2, htnn, h]
    rw [← h4, ← key] at hr
    exact Rat.cast_le.1 hr

/-- C8: for n ≥ 100 bits, the NIST runs test returns p = 0 and fails (without
an error and with no statistic) when `|pi - 1/2| >= 2/sqrt n`; otherwise it
returns `V = 1 +` the number of adjacent bit transitions, p-value the erfc
oracle applied to the squared argument
`(V - 2 n pi (1-pi))^2 / (8 n (pi (1-pi))^2)`, and passes exactly when that
p-value is at least 0.01. For n < 100 it fails with an error. -/
theorem claim_C8 (erfcOfSq : ℚ → ℚ) (bits : List ℕ) :
    (bits.length < 100 →
      _runs_test erfcOfSq bits = .error .InsufficientData) ∧
    (100 ≤ bits.length →
      2 / Real.sqrt bits.length ≤
          |(((bits.sum : ℚ) / (bits.length : ℚ) : ℚ) : ℝ) - 1 / 2| →
      _runs_test erfcOfSq bits =
        .ok { statistic := none, p_value := 0, passed := false }) ∧
    (100 ≤ bits.length →
      ¬ (2 / Real.sqrt bits.length ≤
          |(((bits.sum : ℚ) / (bits.length : ℚ) : ℚ) : ℝ) - 1 / 2|) →
      _runs_test erfcOfSq bits =
        .ok { statistic :=
                some ((1 + (bits.zip bits.tail).countP
                  (fun p => decide (p.1 ≠ p.2)) : ℕ) : ℚ)
              p_value := erfcOfSq
                ((((1 + (bits.zip bits.tail).countP
                      (fun p => decide (p.1 ≠ p.2)) : ℕ) : ℚ) -
                    2 * bits.length * ((bits.sum : ℚ) / bits.length) *
                      (1 - (bits.sum : ℚ) / bits.length)) ^ 2 /
                  (8 * bits.length * (((bits.sum : ℚ) / bits.length) *
                    (1 - (bits.sum : ℚ) / bits.length)) ^ 2))
              passed := decide (1 / 100 ≤ erfcOfSq
                ((((1 + (bits.zip bits.tail).countP
                      (fun p => decide (p.1 ≠ p.2)) : ℕ) : ℚ) -
                    2 * bits.length * ((bits.sum : ℚ) / bits.length) *
                      (1 - (bits.sum : ℚ) / bits.length)) ^ 2 /
                  (8 * bits.length * (((bits.sum : ℚ) / bits.length) *
                    (1 - (bits.sum : ℚ) / bits.length)) ^ 2))) }) := by
  refine ⟨?_, ?_, ?_⟩
  · intro hshort
    simp only [_runs_test]
    rw [if_pos hshort]
  · intro hlen hpre
    have hq := (runs_precheck_iff bits.length (by omega)
      ((bits.sum : ℚ) / (bits.length : ℚ))).2 hpre
    simp only [_runs_test]
    rw [if_neg (by omega), if_pos hq]
  · intro hlen hpre
    have hq := (runs_precheck_iff bits.length (by omega)
      ((bits.sum : ℚ) / (bits.length : ℚ))).not.2 hpre
    simp only [_runs_test]
    rw [if_neg (by omega), if_neg hq, adjacent_changes_eq_countP]
    rfl

/-- Witness for C8: one hundred alternating bits take the main branch. -/
theorem claim_C8_witness :
    (100 ≤ ((List.replicate 50 [0, 1]).join : List ℕ).length ∧
      ¬ (2 / Real.sqrt ((List.replicate 50 [0, 1]).join : List ℕ).length ≤
        |((((((List.replicate 50 [0, 1]).join : List ℕ).sum : ℚ) /
            ((((List.replicate 50 [0, 1]).join : List ℕ)).length : ℚ) : ℚ) : ℝ)) -
          1 / 2|)) ∧
    _runs_test (fun _ => 0) ((List.replicate 50 [0, 1]).join) =
      .ok { statistic :=
              some ((1 + (((List.replicate 50 [0, 1]).join : List ℕ).zip
                (((List.replicate 50 [0, 1]).join : List ℕ)).tail).countP
                  (fun p => decide (p.1 ≠ p.2)) : ℕ) : ℚ)
            p_value := (fun (_ : ℚ) => (0 : ℚ))
              ((((1 + (((List.replicate 50 [0, 1]).join : List ℕ).zip
                    (((List.replicate 50 [0, 1]).join : List ℕ)).tail).countP
                      (fun p => decide (p.1 ≠ p.2)) : ℕ) : ℚ) -
                  2 * (((List.replicate 50 [0, 1]).join : List ℕ)).length *
                    (((((List.replicate 50 [0, 1]).join : List ℕ)).sum : ℚ) /
                      (((List.replicate 50 [0, 1]).join : List ℕ)).length) *
                    (1 - ((((List.replicate 50 [0, 1]).join : List ℕ)).sum : ℚ) /
                      (((List.replicate 50 [0, 1]).join : List ℕ)).length)) ^ 2 /
                (8 * (((List.replicate 50 [0, 1]).join : List ℕ)).length *
                  ((((((List.replicate 50 [0, 1]).join : List ℕ)).sum : ℚ) /
                      (((List.replicate 50 [0, 1]).join : List ℕ)).length) *
                    (1 - ((((List.replicate 50 [0, 1]).join : List ℕ)).sum : ℚ) /
                      (((List.replicate 50 [0, 1]).join : List ℕ)).length)) ^ 2))
            passed := decide ((1 : ℚ) / 100 ≤ (fun (_ : ℚ) => (0 : ℚ))
              ((((1 + (((List.replicate 50 [0, 1]).join : List ℕ).zip
                    (((List.replicate 50 [0, 1]).join : List ℕ)).tail).countP
                      (fun p => decide (p.1 ≠ p.2)) : ℕ) : ℚ) -
                  2 * (((List.replicate 50 [0, 1]).join : List ℕ)).length *
                    (((((List.replicate 50 [0, 1]).join : List ℕ)).sum : ℚ) /
                      (((List.replicate 50 [0, 1]).join : List ℕ)).length) *
                    (1 - ((((List.replicate 50 [0, 1]).join : List ℕ)).sum : ℚ) /
                      (((List.replicate 50 [0, 1]).join : List ℕ)).length)) ^ 2 /
                (8 * (((List.replicate 50 [0, 1]).join : List ℕ)).length *
                  ((((((List.replicate 50 [0, 1]).join : List ℕ)).sum : ℚ) /
                      (((List.replicate 50 [0, 1]).join : List ℕ)).length) *
                    (1 - ((((List.replicate 50 [0, 1]).join : List ℕ)).sum : ℚ) /
                      (((List.replicate 50 [0, 1]).join : List ℕ)).length)) ^ 2))) } := by
  have hlen : ((List.replicate 50 [0, 1]).join : List ℕ).length = 100 := by decide
  have hsum : ((List.replicate 50 [0, 1]).join : List ℕ).sum = 50 := by decide
  have hpi : ((((List.replicate 50 [0, 1]).join : List ℕ).sum : ℚ) /
      ((((List.replicate 50 [0, 1]).join : List ℕ)).length : ℚ) : ℚ) = 1 / 2 := by
    rw [hlen, hsum]
    norm_num
  have habs : |((((((List.replicate 50 [0, 1]).join : List ℕ).sum : ℚ) /
      ((((List.replicate 50 [0, 1]).join : List ℕ)).length : ℚ) : ℚ) : ℝ)) -
        1 / 2| = 0 := by
    rw [hpi]
    norm_num
  have hpre : ¬ (2 / Real.sqrt ((List.replicate 50 [0, 1]).join : List ℕ).length ≤
      |((((((List.replicate 50 [0, 1]).join : List ℕ).sum : ℚ) /
          ((((List.replicate 50 [0, 1]).join : List ℕ)).length : ℚ) : ℚ) : ℝ)) -
        1 / 2|) := by
    rw [habs, hlen]
    push_neg
    positivity
  exact ⟨⟨by rw [hlen], hpre⟩,
    (claim_C8 (fun _ => 0) ((List.replicate 50 [0, 1]).join)).2.2
      (by rw [hlen]) hpre⟩

/-! C9: serial test. -/

/-- Cyclic m-bit windows of the bit sequence: Python builds
`extended = bits + bits[:m-1]` and takes `extended[i:i+m]` for each `i` below
the bit count. -/
def _windows (bits : List ℕ) (m : ℕ) : List (List ℕ) :=
  let extended := bits ++ bits.take (m - 1)
  (List.range bits.length).map (fun i => (extended.drop i).take m)

/-- Python `_psi2`: `(sum of squared window frequencies) * 2^m / n - n`,
zero when `m = 0` or the sequence is empty. -/
def _psi2 (bits : List ℕ) (m : ℕ) : ℚ :=
  if m = 0 ∨ bits.length = 0 then 0
  else
    let ws := _windows bits m
    let total := (ws.dedup.map (fun w => (ws.count w) ^ 2)).sum
    (total : ℚ) * 2 ^ m / bits.length - bits.length

/-- Result record of `_serial_test`: the two delta statistics and the two
p-values produced by the regularized upper incomplete gamma oracle
(`gammaincc(a, x)` at exact rational arguments). -/
structure SerialTestFields where
  delta1 : ℚ
  delta2 : ℚ
  p_value1 : ℚ
  p_value2 : ℚ
  passed : Bool
deriving DecidableEq

/-- Python `_serial_test` with the `gammaincc` oracle as a parameter. The
code validates only `m >= 2` and `n >= m`; no upper bound on `m` is
enforced here (the HTTP layer constrains `serial_block` to 2..4). -/
def _serial_test (gammaincc : ℚ → ℚ → ℚ) (bits : List ℕ) (m : ℕ) :
    Except AnalysisError SerialTestFields :=
  if m < 2 then .error .InvalidParameter
  else if bits.length < m then .error .InsufficientData
  else
    let psi_m := _psi2 bits m
    let psi_m1 := _psi2 bits (m - 1)
    let psi_m2 := _psi2 bits (m - 2)
    let delta1 := psi_m - psi_m1
    let delta2 := psi_m - 2 * psi_m1 + psi_m2
    let p1 := gammaincc ((2 : ℚ) ^ (m - 1) / 2) (delta1 / 2)
    let p2 := gammaincc ((2 : ℚ) ^ (m - 2) / 2) (delta2 / 2)
    .ok ⟨delta1, delta2, p1, p2,
      decide (RANDOMNESS_ALPHA ≤ p1) && decide (RANDOMNESS_ALPHA ≤ p2)⟩

/-- C9 counterexample: with `m = 5` (outside 2..4) and a five-bit sequence of
length ≥ m, `_serial_test` returns a result instead of failing with an
error. -/
theorem claim_C9_counterexample :
    5 ≤ ([1, 1, 1, 1, 1] : List ℕ).length ∧
    ∃ r, _serial_test (fun _ _ => 0) [1, 1, 1, 1, 1] 5 = .ok r := by
  refine ⟨by decide, ?_⟩
  simp only [_serial_test]
  rw [if_neg (by omega), if_neg (by decide)]
  exact ⟨_, rfl⟩

/-- C9 amended: the serial test rejects `m < 2` with an error and fails with
an error when the bit sequence is shorter than `m`; it does not enforce the
upper bound `m ≤ 4` (which is enforced by the surrounding HTTP layer): for
any `m ≥ 2` and sequence of length at least `m` it returns a result. -/
theorem claim_C9 (gammaincc : ℚ → ℚ → ℚ) (bits : List ℕ) (m : ℕ) :
    (m < 2 → _serial_test gammaincc bits m = .error .InvalidParameter) ∧
    (2 ≤ m → bits.length < m →
      _serial_test gammaincc bits m = .error .InsufficientData) ∧
    (2 ≤ m → m ≤ bits.length →
      ∃ r, _serial_test gammaincc bits m = .ok r) := by
  refine ⟨?_, ?_, ?_⟩
  · intro h
    simp only [_serial_test]
    rw [if_pos h]
  · intro h2 hlen
    simp only [_serial_test]
    rw [if_neg (by omega), if_pos hlen]
  · intro h2 hlen
    simp only [_serial_test]
    rw [if_neg (by omega), if_neg (by omega)]
    exact ⟨_, rfl⟩

/-- Witness for C9 at `m = 2` on a three-bit sequence. -/
theorem claim_C9_witness :
    (2 ≤ 2 ∧ 2 ≤ ([0, 1, 0] : List ℕ).length) ∧
    ∃ r, _serial_test (fun _ _ => 0) [0, 1, 0] 2 = .ok r :=
  ⟨⟨by decide, by decide⟩,
    (claim_C9 (fun _ _ => 0) [0, 1, 0] 2).2.2 (by decide) (by decide)⟩

/-! C2 and C10: cumulative sums test. -/

/-- Python `int(x)` on an exact rational: truncation toward zero (ceiling for
negative values, floor otherwise). -/
def pyint (q : ℚ) : ℤ := if q < 0 then ⌈q⌉ else ⌊q⌋

/-- The loop of `_range_sum` inside `_cumulative_sums_p_value`: starting at
`k = start`, `count` iterations accumulating
`phi (4 k + offset) - phi (4 k + offset - 2)`, where `phi m` stands for
`Φ(m z / sqrt n)` as supplied by the normal-CDF oracle. -/
def _range_sum (phi : ℤ → ℚ) (offset : ℤ) : ℤ → ℕ → ℚ
  | _, 0 => 0
  | start, count + 1 =>
      (phi (4 * start + offset) - phi (4 * start + offset - 2)) +
        _range_sum phi offset (start + 1) count

/-- Python `max(abs(value) for value in l)` over a list of integers (0 when
empty; the callers guarantee non-emptiness). -/
def max_abs (l : List ℤ) : ℕ := (l.map Int.natAbs).foldr max 0

/-- The summation branch of `_cumulative_sums_p_value` for length `n` and
maximal absolute partial sum `z`, with Python `int()` truncation bounds. -/
def _cusum_formula (phi : ℕ → ℕ → ℤ → ℚ) (n z : ℕ) : ℚ :=
  let start1 := pyint ((-(n : ℚ) / z + 1) / 4)
  let end1 := pyint (((n : ℚ) / z - 1) / 4)
  let sum1 := if start1 ≤ end1 then
      _range_sum (phi n z) 1 start1 (end1 + 1 - start1).toNat else 0
  let start2 := pyint ((-(n : ℚ) / z - 3) / 4)
  let end2 := pyint (((n : ℚ) / z - 1) / 4)
  let sum2 := if start2 ≤ end2 then
      _range_sum (phi n z) 3 start2 (end2 + 1 - start2).toNat else 0
  1 - sum1 + sum2

/-- Python `_cumulative_sums_p_value` with the normal-CDF oracle `phi`, where
`phi n z m` stands for `Φ(m z / sqrt n)` (the code evaluates
`stats.norm.cdf(((4 k + offset) * z) / sqrt n)` inside the loop). -/
def _cumulative_sums_p_value (phi : ℕ → ℕ → ℤ → ℚ) (csums : List ℤ) : ℚ :=
  if csums.length = 0 then 1
  else if max_abs csums = 0 then 1
  else _cusum_formula phi csums.length (max_abs csums)

/-- Modelled from the spec (C2's reading of the summation bounds): identical
to `_cusum_formula` except that the bounds are floors `⌊(±n/z ± c)/4⌋`
rather than Python `int()` truncations toward zero. -/
def spec_cusum_formula_floor (phi : ℕ → ℕ → ℤ → ℚ) (n z : ℕ) : ℚ :=
  let start1 := ⌊(-(n : ℚ) / z + 1) / 4⌋
  let end1 := ⌊((n : ℚ) / z - 1) / 4⌋
  let sum1 := if start1 ≤ end1 then
      _range_sum (phi n z) 1 start1 (end1 + 1 - start1).toNat else 0
  let start2 := ⌊(-(n : ℚ) / z - 3) / 4⌋
  let end2 := ⌊((n : ℚ) / z - 1) / 4⌋
  let sum2 := if start2 ≤ end2 then
      _range_sum (phi n z) 3 start2 (end2 + 1 - start2).toNat else 0
  1 - sum1 + sum2

/-- Python `itertools.accumulate`: running sums with no initial element. -/
def _accumulate (acc : ℤ) : List ℤ → List ℤ
  | [] => []
  | x :: rest => (acc + x) :: _accumulate (acc + x) rest

/-- The adjustment `[1 if bit else -1 for bit in bits]`. -/
def plus_minus_one (bits : List ℕ) : List ℤ :=
  bits.map (fun bit => if bit ≠ 0 then (1 : ℤ) else -1)

/-- Result record of `_cumulative_sums_test` (a `RandomnessTestResult` whose
detail holds the per-direction p-values). -/
structure CusumTestFields where
  statistic : ℕ
  p_value : ℚ
  p_forward : ℚ
  p_backward : ℚ
  passed : Bool
deriving DecidableEq

/-- Python `_cumulative_sums_test` with the normal-CDF oracle. -/
def _cumulative_sums_test (phi : ℕ → ℕ → ℤ → ℚ) (bits : List ℕ) :
    Except AnalysisError CusumTestFields :=
  if bits.length < 100 then .error .InsufficientData
  else
    let adjusted := plus_minus_one bits
    let forward_sums := _accumulate 0 adjusted
    let backward_sums := _accumulate 0 adjusted.reverse
    let p_forward := _cumulative_sums_p_value phi forward_sums
    let p_backward := _cumulative_sums_p_value phi backward_sums
    .ok
      { statistic := max_abs forward_sums
        p_value := min p_forward p_backward
        p_forward := p_forward
        p_backward := p_backward
        passed := decide (RANDOMNESS_ALPHA ≤ p_forward) &&
          decide (RANDOMNESS_ALPHA ≤ p_backward) }

theorem accumulate_eq_take_sums (l : List ℤ) (acc : ℤ) :
    _accumulate acc l =
      (List.range l.length).map (fun i => acc + (l.take (i + 1)).sum) := by
  induction l generalizing acc with
  | nil => simp [_accumulate]
  | cons x rest ih =>
    simp only [_accumulate, List.length_cons, List.range_succ_eq_map,
      List.map_cons, List.map_map, ih]
    congr 1
    · simp
    · apply List.map_congr_left
      intro i _
      simp [List.take_succ_cons]
      ring

theorem range_sum_eq_Icc (phi : ℤ → ℚ) (off : ℤ) (c : ℕ) :
    ∀ s : ℤ, _range_sum phi off s c =
      ∑ k ∈ Finset.Icc s (s + c - 1),
        (phi (4 * k + off) - phi (4 * k + off - 2)) := by
  induction c with
  | zero =>
    intro s
    rw [Finset.Icc_eq_empty (by omega)]
    simp [_range_sum]
  | succ c ih =>
    intro s
    have hIcc : Finset.Icc s (s + (c + 1 : ℕ) - 1) =
        insert s (Finset.Icc (s + 1) (s + 1 + c - 1)) := by
      ext k
      simp only [Finset.mem_Icc, Finset.mem_insert]
      omega
    rw [show _range_sum phi off s (c + 1) =
        (phi (4 * s + off) - phi (4 * s + off - 2)) +
          _range_sum phi off (s + 1) c from rfl,
      ih (s + 1), hIcc,
      Finset.sum_insert (by simp only [Finset.mem_Icc]; omega)]

theorem range_sum_eq_Icc' (phi : ℤ → ℚ) (off : ℤ) {s e : ℤ} (h : s ≤ e) :
    _range_sum phi off s (e + 1 - s).toNat =
      ∑ k ∈ Finset.Icc s e, (phi (4 * k + off) - phi (4 * k + off - 2)) := by
  have hb : s + ((e + 1 - s).toNat : ℤ) - 1 = e := by
    rw [Int.toNat_of_nonneg (by omega)]
    omega
  rw [range_sum_eq_Icc, hb]

theorem length_accumulate (acc : ℤ) (l : List ℤ) :
    (_accumulate acc l).length = l.length := by
  induction l generalizing acc with
  | nil => rfl
  | cons x rest ih => simp [_accumulate, ih]

theorem plus_minus_one_mem {bits : List ℕ} :
    ∀ x ∈ plus_minus_one bits, x = 1 ∨ x = -1 := by
  intro x hx
  simp only [plus_minus_one, List.mem_map] at hx
  obtain ⟨bit, _, rfl⟩ := hx
  split <;> simp

theorem max_abs_accumulate_pm {l : List ℤ} (hne : l ≠ [])
    (hpm : ∀ x ∈ l, x = 1 ∨ x = -1) :
    (∃ x, (_accumulate 0 l).head? = some x ∧ (x = 1 ∨ x = -1)) ∧
      1 ≤ max_abs (_accumulate 0 l) := by
  cases l with
  | nil => simp at hne
  | cons a t =>
    have ha := hpm a (by simp)
    have hfirst : _accumulate 0 (a :: t) = (0 + a) :: _accumulate (0 + a) t :=
      rfl
    have hmax : max_abs ((0 + a) :: _accumulate (0 + a) t) =
        max (0 + a).natAbs (max_abs (_accumulate (0 + a) t)) := rfl
    constructor
    · refine ⟨0 + a, by rw [hfirst]; rfl, ?_⟩
      rcases ha with rfl | rfl <;> simp
    · rw [hfirst, hmax]
      rcases ha with rfl | rfl <;> simp

theorem range_sum_off1 (phi : ℤ → ℚ) {s e : ℤ} (h : s ≤ e) :
    _range_sum phi 1 s (e + 1 - s).toNat =
      ∑ k ∈ Finset.Icc s e, (phi (4 * k + 1) - phi (4 * k - 1)) := by
  rw [range_sum_eq_Icc' phi 1 h]
  apply Finset.sum_congr rfl
  intro k _
  congr 1
  ring

theorem range_sum_off3 (phi : ℤ → ℚ) {s e : ℤ} (h : s ≤ e) :
    _range_sum phi 3 s (e + 1 - s).toNat =
      ∑ k ∈ Finset.Icc s e, (phi (4 * k + 3) - phi (4 * k + 1)) := by
  rw [range_sum_eq_Icc' phi 3 h]
  apply Finset.sum_congr rfl
  intro k _
  congr 1
  ring

/-- C10: for a non-empty bit sequence the first forward and the first
backward partial sum of the ±1-adjusted bits are ±1, so the maximal absolute
partial sum is at least 1 in both directions; hence under the `n ≥ 100`
precondition of the cumulative sums test the trivial-pass `z = 0` branch of
`_cumulative_sums_p_value` is unreachable and both direction p-values are
produced by the summation formula. -/
theorem claim_C10 (phi : ℕ → ℕ → ℤ → ℚ) (bits : List ℕ) :
    (bits ≠ [] →
      (∃ x, (_accumulate 0 (plus_minus_one bits)).head? = some x ∧
        (x = 1 ∨ x = -1)) ∧
      (∃ x, (_accumulate 0 (plus_minus_one bits).reverse).head? = some x ∧
        (x = 1 ∨ x = -1)) ∧
      1 ≤ max_abs (_accumulate 0 (plus_minus_one bits)) ∧
      1 ≤ max_abs (_accumulate 0 (plus_minus_one bits).reverse)) ∧
    (100 ≤ bits.length →
      _cumulative_sums_p_value phi (_accumulate 0 (plus_minus_one bits)) =
        _cusum_formula phi (_accumulate 0 (plus_minus_one bits)).length
          (max_abs (_accumulate 0 (plus_minus_one bits))) ∧
      _cumulative_sums_p_value phi
          (_accumulate 0 (plus_minus_one bits).reverse) =
        _cusum_formula phi
          (_accumulate 0 (plus_minus_one bits).reverse).length
          (max_abs (_accumulate 0 (plus_minus_one bits).reverse))) := by
  have hlen_pm : (plus_minus_one bits).length = bits.length := by
    simp [plus_minus_one]
  have main : bits ≠ [] →
      (∃ x, (_accumulate 0 (plus_minus_one bits)).head? = some x ∧
        (x = 1 ∨ x = -1)) ∧
      (∃ x, (_accumulate 0 (plus_minus_one bits).reverse).head? = some x ∧
        (x = 1 ∨ x = -1)) ∧
      1 ≤ max_abs (_accumulate 0 (plus_minus_one bits)) ∧
      1 ≤ max_abs (_accumulate 0 (plus_minus_one bits).reverse) := by
    intro hne
    have hpm : ∀ x ∈ plus_minus_one bits, x = 1 ∨ x = -1 :=
      plus_minus_one_mem
    have hne' : plus_minus_one bits ≠ [] := by
      intro h
      apply hne
      have := congrArg List.length h
      rw [hlen_pm] at this
      exact List.length_eq_zero.1 this
    have hner : (plus_minus_one bits).reverse ≠ [] := by
      simpa using hne'
    have hpmr : ∀ x ∈ (plus_minus_one bits).reverse, x = 1 ∨ x = -1 := by
      intro x hx
      exact hpm x (List.mem_reverse.1 hx)
    obtain ⟨h1, h2⟩ := max_abs_accumulate_pm hne' hpm
    obtain ⟨h3, h4⟩ := max_abs_accumulate_pm hner hpmr
    exact ⟨h1, h3, h2, h4⟩
  refine ⟨main, ?_⟩
  intro h100
  have hne : bits ≠ [] := by
    intro h
    rw [h] at h100
    simp at h100
  obtain ⟨_, _, hzf, hzb⟩ := main hne
  constructor
  · simp only [_cumulative_sums_p_value]
    rw [if_neg (by rw [length_accumulate, hlen_pm]; omega),
      if_neg (by omega)]
  · simp only [_cumulative_sums_p_value]
    rw [if_neg (by rw [length_accumulate, List.length_reverse, hlen_pm]; omega),
      if_neg (by omega)]

/-- Witness for C10 at a concrete 100-bit sequence. -/
theorem claim_C10_witness :
    ((List.replicate 100 1 : List ℕ) ≠ [] ∧
      100 ≤ (List.replicate 100 1 : List ℕ).length) ∧
    (1 ≤ max_abs (_accumulate 0 (plus_minus_one (List.replicate 100 1))) ∧
      _cumulative_sums_p_value (fun _ _ _ => 0)
          (_accumulate 0 (plus_minus_one (List.replicate 100 1))) =
        _cusum_formula (fun _ _ _ => 0)
          (_accumulate 0 (plus_minus_one (List.replicate 100 1))).length
          (max_abs (_accumulate 0 (plus_minus_one (List.replicate 100 1))))) :=
  ⟨⟨by decide, by decide⟩,
    ⟨((claim_C10 (fun _ _ _ => 0) (List.replicate 100 1)).1 (by decide)).2.2.1,
      ((claim_C10 (fun _ _ _ => 0) (List.replicate 100 1)).2 (by decide)).1⟩⟩

/-- The C2 claim's per-direction p-value, as interval sums with
truncation-toward-zero bounds (each sum taken as 0 when its lower bound
exceeds its upper bound). -/
def cusum_p_spec (phi : ℕ → ℕ → ℤ → ℚ) (n z : ℕ) : ℚ :=
  (1 : ℚ) -
    (if pyint ((-(n : ℚ) / z + 1) / 4) ≤ pyint (((n : ℚ) / z - 1) / 4) then
      ∑ k ∈ Finset.Icc (pyint ((-(n : ℚ) / z + 1) / 4))
          (pyint (((n : ℚ) / z - 1) / 4)),
        (phi n z (4 * k + 1) - phi n z (4 * k - 1))
    else 0) +
    (if pyint ((-(n : ℚ) / z - 3) / 4) ≤ pyint (((n : ℚ) / z - 1) / 4) then
      ∑ k ∈ Finset.Icc (pyint ((-(n : ℚ) / z - 3) / 4))
          (pyint (((n : ℚ) / z - 1) / 4)),
        (phi n z (4 * k + 3) - phi n z (4 * k + 1))
    else 0)

theorem cusum_formula_eq_spec (phi : ℕ → ℕ → ℤ → ℚ) (n z : ℕ) :
    _cusum_formula phi n z = cusum_p_spec phi n z := by
  simp only [_cusum_formula, cusum_p_spec]
  by_cases h1 : pyint ((-(n : ℚ) / z + 1) / 4) ≤ pyint (((n : ℚ) / z - 1) / 4) <;>
    by_cases h2 : pyint ((-(n : ℚ) / z - 3) / 4) ≤ pyint (((n : ℚ) / z - 1) / 4)
  · rw [if_pos h1, if_pos h1, if_pos h2, if_pos h2,
      range_sum_off1 _ h1, range_sum_off3 _ h2]
  · rw [if_pos h1, if_pos h1, if_neg h2, if_neg h2, range_sum_off1 _ h1]
  · rw [if_neg h1, if_neg h1, if_pos h2, if_pos h2, range_sum_off3 _ h2]
  · rw [if_neg h1, if_neg h1, if_neg h2, if_neg h2]

theorem cusum_p_value_eq_formula (phi : ℕ → ℕ → ℤ → ℚ) {l : List ℤ}
    (hne : l.length ≠ 0) (hz : max_abs l ≠ 0) :
    _cumulative_sums_p_value phi l = _cusum_formula phi l.length (max_abs l) := by
  simp only [_cumulative_sums_p_value]
  rw [if_neg hne, if_neg hz]

/-- C2 (amended): for n ≥ 100 bits, the cumulative sums test forms forward
and backward partial sums of the ±1-adjusted bits, computes each direction's
p-value from the summation formula whose index bounds are Python `int()`
truncations toward zero of `(±n/z ± c)/4` (equal to the spec's floors for
non-negative arguments only), returns the minimum of the two p-values, and
passes exactly when both are at least 0.01. -/
theorem claim_C2 (phi : ℕ → ℕ → ℤ → ℚ) (bits : List ℕ)
    (h100 : 100 ≤ bits.length) :
    ∃ r, _cumulative_sums_test phi bits = .ok r ∧
      _accumulate 0 (plus_minus_one bits) =
        (List.range bits.length).map
          (fun i => ((plus_minus_one bits).take (i + 1)).sum) ∧
      _accumulate 0 (plus_minus_one bits).reverse =
        (List.range bits.length).map
          (fun i => ((plus_minus_one bits).reverse.take (i + 1)).sum) ∧
      r.p_forward = cusum_p_spec phi bits.length
        (max_abs (_accumulate 0 (plus_minus_one bits))) ∧
      r.p_backward = cusum_p_spec phi bits.length
        (max_abs (_accumulate 0 (plus_minus_one bits).reverse)) ∧
      r.p_value = min r.p_forward r.p_backward ∧
      (r.passed = true ↔
        1 / 100 ≤ r.p_forward ∧ 1 / 100 ≤ r.p_backward) := by
  have hlen_pm : (plus_minus_one bits).length = bits.length := by
    simp [plus_minus_one]
  have hne' : plus_minus_one bits ≠ [] := by
    intro h
    rw [← hlen_pm] at h100
    rw [h] at h100
    simp at h100
  have hner : (plus_minus_one bits).reverse ≠ [] := by simpa using hne'
  have hpmr : ∀ x ∈ (plus_minus_one bits).reverse, x = 1 ∨ x = -1 :=
    fun x hx => plus_minus_one_mem x (List.mem_reverse.1 hx)
  have hzf := (max_abs_accumulate_pm hne' plus_minus_one_mem).2
  have hzb := (max_abs_accumulate_pm hner hpmr).2
  have hflen : (_accumulate 0 (plus_minus_one bits)).length = bits.length := by
    rw [length_accumulate, hlen_pm]
  have hblen : (_accumulate 0 (plus_minus_one bits).reverse).length =
      bits.length := by
    rw [length_accumulate, List.length_reverse, hlen_pm]
  simp only [_cumulative_sums_test]
  rw [if_neg (by omega)]
  refine ⟨_, rfl, ?_, ?_, ?_, ?_, rfl, ?_⟩
  · rw [accumulate_eq_take_sums, hlen_pm]
    apply List.map_congr_left
    intro i _
    ring
  · rw [accumulate_eq_take_sums, List.length_reverse, hlen_pm]
    apply List.map_congr_left
    intro i _
    ring
  · show _cumulative_sums_p_value phi (_accumulate 0 (plus_minus_one bits)) = _
    rw [cusum_p_value_eq_formula phi (by omega) (by omega),
      cusum_formula_eq_spec, hflen]
  · show _cumulative_sums_p_value phi
      (_accumulate 0 (plus_minus_one bits).reverse) = _
    rw [cusum_p_value_eq_formula phi (by omega) (by omega),
      cusum_formula_eq_spec, hblen]
  · show (decide (RANDOMNESS_ALPHA ≤ _) && decide (RANDOMNESS_ALPHA ≤ _)) =
      true ↔ _
    rw [Bool.and_eq_true, decide_eq_true_eq, decide_eq_true_eq]
    exact Iff.rfl

/-- Witness for C2 at one hundred one-bits with the zero oracle. -/
theorem claim_C2_witness :
    100 ≤ (List.replicate 100 1 : List ℕ).length ∧
    ∃ r, _cumulative_sums_test (fun _ _ _ => 0) (List.replicate 100 1) =
        .ok r ∧
      r.p_value = min r.p_forward r.p_backward :=
  ⟨by decide,
    match claim_C2 (fun _ _ _ => 0) (List.replicate 100 1) (by decide) with
    | ⟨r, h1, _, _, _, _, h6, _⟩ => ⟨r, h1, h6⟩⟩

/-- Concrete input for the C2 counterexample: three 1-bits followed by 97
alternating bits; its forward partial sums have maximal absolute value 3. -/
def cusum_cx_bits : List ℕ := [1, 1, 1] ++ (List.replicate 48 [0, 1]).join ++ [0]

/-- A strictly monotone stand-in for the normal-CDF oracle (`Φ(m z / sqrt n)`
is strictly increasing in `m` for fixed `n, z > 0`, so a faithful oracle is
strictly monotone in its last argument, as the cube is). -/
def cubeOracle : ℕ → ℕ → ℤ → ℚ := fun _ _ m => (m : ℚ) ^ 3

set_option maxRecDepth 8000 in
/-- C2 counterexample: at a concrete 100-bit input with z = 3 and a strictly
monotone oracle, the forward p-value computed by the code (truncation-
toward-zero bounds) differs from the claim's floor-bounds formula. -/
theorem claim_C2_counterexample :
    (cusum_cx_bits.length = 100 ∧
      max_abs (_accumulate 0 (plus_minus_one cusum_cx_bits)) = 3) ∧
    ∃ r, _cumulative_sums_test cubeOracle cusum_cx_bits = .ok r ∧
      r.p_forward ≠ spec_cusum_formula_floor cubeOracle 100 3 := by
  have hlen : cusum_cx_bits.length = 100 := by decide
  have hfwlen : (_accumulate 0 (plus_minus_one cusum_cx_bits)).length = 100 := by
    decide
  have hz : max_abs (_accumulate 0 (plus_minus_one cusum_cx_bits)) = 3 := by
    decide
  refine ⟨⟨hlen, hz⟩, ?_⟩
  simp only [_cumulative_sums_test]
  rw [if_neg (by omega)]
  refine ⟨_, rfl, ?_⟩
  show _cumulative_sums_p_value cubeOracle
      (_accumulate 0 (plus_minus_one cusum_cx_bits)) ≠ _
  rw [cusum_p_value_eq_formula cubeOracle (by omega) (by omega), hfwlen, hz]
  have s1v : pyint ((-((100 : ℕ) : ℚ) / ((3 : ℕ) : ℚ) + 1) / 4) = -8 := by
    have harg : (-((100 : ℕ) : ℚ) / ((3 : ℕ) : ℚ) + 1) / 4 = -97 / 12 := by
      push_cast
      ring
    rw [harg, pyint, if_pos (by norm_num)]
    apply Int.ceil_eq_iff.2
    constructor <;> norm_num
  have e1v : pyint ((((100 : ℕ) : ℚ) / ((3 : ℕ) : ℚ) - 1) / 4) = 8 := by
    have harg : (((100 : ℕ) : ℚ) / ((3 : ℕ) : ℚ) - 1) / 4 = 97 / 12 := by
      push_cast
      ring
    rw [harg, pyint, if_neg (by norm_num)]
    apply Int.floor_eq_iff.2
    constructor <;> norm_num
  have s2v : pyint ((-((100 : ℕ) : ℚ) / ((3 : ℕ) : ℚ) - 3) / 4) = -9 := by
    have harg : (-((100 : ℕ) : ℚ) / ((3 : ℕ) : ℚ) - 3) / 4 = -109 / 12 := by
      push_cast
      ring
    rw [harg, pyint, if_pos (by norm_num)]
    apply Int.ceil_eq_iff.2
    constructor <;> norm_num
  have f1v : ⌊(-((100 : ℕ) : ℚ) / ((3 : ℕ) : ℚ) + 1) / 4⌋ = -9 := by
    have harg : (-((100 : ℕ) : ℚ) / ((3 : ℕ) : ℚ) + 1) / 4 = -97 / 12 := by
      push_cast
      ring
    rw [harg]
    apply Int.floor_eq_iff.2
    constructor <;> norm_num
  have fe1v : ⌊(((100 : ℕ) : ℚ) / ((3 : ℕ) : ℚ) - 1) / 4⌋ = 8 := by
    have harg : (((100 : ℕ) : ℚ) / ((3 : ℕ) : ℚ) - 1) / 4 = 97 / 12 := by
      push_cast
      ring
    rw [harg]
    apply Int.floor_eq_iff.2
    constructor <;> norm_num
  have f2v : ⌊(-((100 : ℕ) : ℚ) / ((3 : ℕ) : ℚ) - 3) / 4⌋ = -10 := by
    have harg : (-((100 : ℕ) : ℚ) / ((3 : ℕ) : ℚ) - 3) / 4 = -109 / 12 := by
      push_cast
      ring
    rw [harg]
    apply Int.floor_eq_iff.2
    constructor <;> norm_num
  simp only [_cusum_formula, spec_cusum_formula_floor, s1v, e1v, s2v, f1v,
    fe1v, f2v]
  rw [if_pos (by decide), if_pos (by decide), if_pos (by decide),
    if_pos (by decide)]
  rw [show ((8 : ℤ) + 1 - -8).toNat = 17 from rfl,
    show ((8 : ℤ) + 1 - -9).toNat = 18 from rfl,
    show ((8 : ℤ) + 1 - -10).toNat = 19 from rfl]
  have hstep1 : _range_sum (cubeOracle 100 3) 1 (-9) 18 =
      (cubeOracle 100 3 (4 * -9 + 1) - cubeOracle 100 3 (4 * -9 + 1 - 2)) +
        _range_sum (cubeOracle 100 3) 1 (-8) 17 := rfl
  have hstep2 : _range_sum (cubeOracle 100 3) 3 (-10) 19 =
      (cubeOracle 100 3 (4 * -10 + 3) - cubeOracle 100 3 (4 * -10 + 3 - 2)) +
        _range_sum (cubeOracle 100 3) 3 (-9) 18 := rfl
  rw [hstep1, hstep2]
  have t1 : cubeOracle 100 3 (4 * -9 + 1) -
      cubeOracle 100 3 (4 * -9 + 1 - 2) = 7778 := by
    norm_num [cubeOracle]
  have t2 : cubeOracle 100 3 (4 * -10 + 3) -
      cubeOracle 100 3 (4 * -10 + 3 - 2) = 8666 := by
    norm_num [cubeOracle]
  rw [t1, t2]
  intro heq
  linarith

end LottoInspec
